import Mathlib

/-!
Verification of the finviz stock-dashboard scraping/normalization pipeline.

The Python sources (scraper.py, load_data.py, setup_database.py,
cron_scrape.py, app.py) are shallowly embedded below.  Python values
(`None`, `str`, `int`, `float`) are modelled by the inductive `Value`,
with Python floats represented exactly as decimal mantissa/exponent
pairs (the spec and the claims speak in exact decimal values; binary
rounding of IEEE doubles is outside the modelled scope).  The Python `float()` / `int()` literal
parsers are modelled for finite decimal literals with optional sign,
fraction, exponent and surrounding ASCII whitespace; the exotic forms
(`inf`, `nan`, digit-group underscores, non-ASCII whitespace) are
outside the modelled scope.  Regular-expression matching for the three
concrete patterns in scraper.py is implemented directly, including the
backtracking order of the Python `re` engine on those patterns.
A raised Python exception is modelled by `Option.none` ( `Except`-style):
every function that can raise returns an `Option`.
-/

namespace StockDash

/-- ASCII decimal digit. -/
def isDig (c : Char) : Bool := '0' ≤ c ∧ c ≤ '9'

/-- ASCII whitespace as recognized by Python `str.strip` / `\s` (ASCII range). -/
def isPyWs (c : Char) : Bool :=
  c = ' ' ∨ c = '\t' ∨ c = '\n' ∨ c = '\r' ∨ c = Char.ofNat 11 ∨ c = Char.ofNat 12

/-- Numeric value of a digit string. -/
def digitsVal (ds : List Char) : Nat :=
  ds.foldl (fun a c => a * 10 + (c.toNat - 48)) 0

/-- Drop trailing characters satisfying `p`. -/
def dropTrail (p : Char → Bool) (cs : List Char) : List Char :=
  ((cs.reverse).dropWhile p).reverse

/-- Python `str.strip()` on a character list (ASCII whitespace). -/
def pyStripChars (cs : List Char) : List Char :=
  dropTrail isPyWs (cs.dropWhile isPyWs)

/-- Python `str.strip()`. -/
def pyStrip (s : String) : String := String.mk (pyStripChars s.data)

/-- Membership of a character in a string (Python `c in s`). -/
def strHas (s : String) (c : Char) : Bool := s.data.contains c

/-- Python `str.replace(old, '')` for a single character: drop all occurrences. -/
def dropAll (c : Char) (s : String) : String := String.mk (s.data.filter (· ≠ c))

/-- A finite Python float, represented exactly in decimal as
`m / 10 ^ e` (mantissa and base-10 exponent).  Every float produced by
this pipeline arises from a decimal literal, so this representation is
exact; binary IEEE rounding is outside the modelled scope.  The pipeline
never compares floats other than by producing them through identical
computations, so structural equality is faithful here. -/
structure PyFloat where
  m : ℤ
  e : ℕ
deriving DecidableEq

/-- Rational value of a `PyFloat` (used in statements for readability). -/
def PyFloat.val (f : PyFloat) : ℚ := (f.m : ℚ) / (10 : ℚ) ^ f.e

/-- Division by 100 on the decimal representation. -/
def PyFloat.div100 (f : PyFloat) : PyFloat := ⟨f.m, f.e + 2⟩

/-- Negation. -/
def PyFloat.neg (f : PyFloat) : PyFloat := ⟨-f.m, f.e⟩

/-- Multiplication by a natural scale factor (the `K`/`M`/`B` multipliers). -/
def PyFloat.scaleNat (f : PyFloat) (k : ℕ) : PyFloat := ⟨f.m * k, f.e⟩

/-- Python `int()` truncation toward zero of a float. -/
def PyFloat.trunc (f : PyFloat) : ℤ := Int.tdiv f.m ((10 : ℤ) ^ f.e)

/-- Exponent suffix of a Python float literal: empty, or `e`/`E`, optional
sign, one or more digits; scales the mantissa accordingly. -/
def pyExpPart (f : PyFloat) (cs : List Char) : Option PyFloat :=
  match cs with
  | [] => some f
  | c :: r =>
    if c = 'e' ∨ c = 'E' then
      let sr : Bool × List Char :=
        match r with
        | c2 :: r2 => if c2 = '+' then (false, r2) else if c2 = '-' then (true, r2) else (false, r)
        | [] => (false, r)
      let ds := sr.2.takeWhile isDig
      let r3 := sr.2.dropWhile isDig
      if ds = [] then none
      else if r3 ≠ [] then none
      else some (if sr.1 then ⟨f.m, f.e + digitsVal ds⟩ else ⟨f.m * (10 : ℤ) ^ digitsVal ds, f.e⟩)
    else none

/-- Unsigned part of a Python float literal: `d+ [. d*] [exp]` or `. d+ [exp]`. -/
def pyFloatMag (cs : List Char) : Option PyFloat :=
  let ip := cs.takeWhile isDig
  let r1 := cs.dropWhile isDig
  match r1 with
  | [] => if ip = [] then none else some ⟨digitsVal ip, 0⟩
  | c :: r2 =>
    if c = '.' then
      let fp := r2.takeWhile isDig
      let r3 := r2.dropWhile isDig
      if ip = [] ∧ fp = [] then none
      else pyExpPart ⟨digitsVal (ip ++ fp), fp.length⟩ r3
    else if ip = [] then none
    else pyExpPart ⟨digitsVal ip, 0⟩ (c :: r2)

/-- Python `float()` on a character list: optional surrounding whitespace,
optional sign, finite decimal literal.  `none` models a raised `ValueError`. -/
def pyFloatChars (cs0 : List Char) : Option PyFloat :=
  let cs := pyStripChars cs0
  match cs with
  | [] => none
  | c :: r =>
    if c = '+' then pyFloatMag r
    else if c = '-' then (pyFloatMag r).map PyFloat.neg
    else pyFloatMag (c :: r)

/-- Python `float()` on a string. -/
def pyFloat (s : String) : Option PyFloat := pyFloatChars s.data

/-- Python `int()` on a string: optional surrounding whitespace, optional
sign, one or more digits.  `none` models a raised `ValueError`. -/
def pyInt (s : String) : Option ℤ :=
  let cs := pyStripChars s.data
  match cs with
  | [] => none
  | c :: r =>
    let sd : Bool × List Char :=
      if c = '+' then (false, r) else if c = '-' then (true, r) else (false, c :: r)
    let ds := sd.2.takeWhile isDig
    let rest := sd.2.dropWhile isDig
    if ds = [] then none
    else if rest ≠ [] then none
    else some (if sd.1 then -(digitsVal ds : ℤ) else (digitsVal ds : ℤ))

/-- A Python value as it flows through the pipeline: `None`, `str`, `int`
or `float` (exact decimal model). -/
inductive Value where
  | vNone : Value
  | vStr : String → Value
  | vInt : ℤ → Value
  | vFloat : PyFloat → Value
deriving DecidableEq

/-- Python truthiness for the modelled values. -/
def truthy : Value → Bool
  | .vNone => false
  | .vStr s => s ≠ ""
  | .vInt n => n ≠ 0
  | .vFloat f => f.m ≠ 0

/-- Python `a or b` on values. -/
def pyOr (a b : Value) : Value := if truthy a then a else b

/-- `FinvizScraper._parse_value` (scraper.py lines 195-219): typed parse of
a single raw cell token.  Empty or dash gives `None`; a string containing
`%` parses with all `%` removed, divided by 100; a trailing `B`/`M`/`K`
scales and truncates to int; otherwise commas are dropped and the text is
parsed as float (if it has a dot) or int; every parse failure returns the
original text. -/
def parse_value (value : String) : Value :=
  if value = "" ∨ value = "-" then .vNone
  else if strHas value '%' then
    match pyFloat (dropAll '%' value) with
    | some f => .vFloat f.div100
    | none => .vStr value
  else
    match value.data.getLast? with
    | some c =>
      if c = 'B' ∨ c = 'M' ∨ c = 'K' then
        let mult : ℕ := if c = 'K' then 1000 else if c = 'M' then 1000000 else 1000000000
        match pyFloat (String.mk value.data.dropLast) with
        | some num => .vInt (num.scaleNat mult).trunc
        | none => .vStr value
      else
        let clean := dropAll ',' value
        if strHas clean '.' then
          match pyFloat clean with
          | some f => .vFloat f
          | none => .vStr value
        else
          match pyInt clean with
          | some n => .vInt n
          | none => .vStr value
    | none => .vStr value

/-- Full match of the tail `\d+\.?\d*%` of the second group of `_RE_52W`
and of the percentage alternative of `_RE_PCT_TOKEN`: one or more digits,
an optional dot with any digits, then `%` at the end.  Backtracking cannot
produce any other acceptance for this suffix pattern. -/
def matchPctTail (cs : List Char) : Bool :=
  let ds := cs.takeWhile isDig
  let r := cs.dropWhile isDig
  if ds = [] then false
  else if r = ['%'] then true
  else
    match r with
    | c :: r2 => c = '.' ∧ r2.dropWhile isDig = ['%']
    | [] => false

/-- Full match of `-?\d+\.?\d*%` (group 2 of `_RE_52W`). -/
def matchSignedPct (cs : List Char) : Bool :=
  match cs with
  | c :: r => if c = '-' then matchPctTail r else matchPctTail (c :: r)
  | [] => false

/-- The unsigned part `\d+\.?\d*%` of the first `_RE_PCT_TOKEN`
alternative, matched at the head of `cs` under the greedy backtracking
order (for this pattern the greedy acceptance is unique: a maximal digit
run, an optional dot with a maximal digit run, then `%`).  Returns the
matched characters and the remainder. -/
def pctTokCore (cs : List Char) : Option (List Char × List Char) :=
  let ds := cs.takeWhile isDig
  let r1 := cs.dropWhile isDig
  if ds = [] then none
  else
    match r1 with
    | c :: r2 =>
      if c = '%' then some (ds ++ ['%'], r2)
      else if c = '.' then
        match r2.dropWhile isDig with
        | c3 :: r4 =>
          if c3 = '%' then some (ds ++ '.' :: r2.takeWhile isDig ++ ['%'], r4) else none
        | [] => none
      else none
    | [] => none

/-- One step of `_RE_PCT_TOKEN.findall`: the leftmost match of
`-?\d+\.?\d*%|-` starting exactly at the head of `cs`, in the Python
backtracking order: the percentage alternative is preferred (with its
optional minus sign), the bare-dash alternative is the fallback.
Returns the matched token and the remaining characters. -/
def pctTokAt (cs : List Char) : Option (List Char × List Char) :=
  match cs with
  | [] => none
  | c :: r =>
    if c = '-' then
      match pctTokCore r with
      | some tr => some ('-' :: tr.1, tr.2)
      | none => some (['-'], r)
    else pctTokCore (c :: r)

/-- Scan loop of `re.findall`: try a match at every position, consume the
match or advance one character.  Fuel-indexed (the fuel `cs.length` always
suffices because every step consumes at least one character). -/
def scanTokensF : Nat → List Char → List (List Char)
  | 0, _ => []
  | _ + 1, [] => []
  | n + 1, c :: rest =>
    match pctTokAt (c :: rest) with
    | some (tok, r) => tok :: scanTokensF n r
    | none => scanTokensF n rest

/-- `_RE_PCT_TOKEN.findall(s)`: all tokens matching `-?\d+\.?\d*%|-`. -/
def findTokens (s : String) : List String :=
  (scanTokensF s.data.length s.data).map String.mk

/-- Group-1 decimal-part alternatives of `_RE_52W` at a fixed integer stem,
in backtracking order: `.dd`, then `.d`, then no decimal part; paired with
the remainder left for group 2. -/
def dec52Opts (stem rest : List Char) : List (List Char × List Char) :=
  (match rest with
   | '.' :: d1 :: d2 :: r =>
     (if isDig d1 ∧ isDig d2 then [(stem ++ ['.', d1, d2], r)] else []) ++
       (if isDig d1 then [(stem ++ ['.', d1], d2 :: r)] else [])
   | '.' :: d1 :: r => if isDig d1 then [(stem ++ ['.', d1], r)] else []
   | _ => []) ++ [(stem, rest)]

/-- Try the group-1 candidates at one integer-stem length; succeed on the
first whose remainder fully matches group 2. -/
def try52At (stem rest : List Char) : Option (List Char × List Char) :=
  (dec52Opts stem rest).findSome? fun g =>
    if matchSignedPct g.2 then some g else none

/-- Backtracking over the length of the greedy `\d+` of group 1 of
`_RE_52W`, from `k` digits down to 1. -/
def match52Go (ds r : List Char) : Nat → Option (List Char × List Char)
  | 0 => none
  | k + 1 =>
    match try52At (ds.take (k + 1)) (ds.drop (k + 1) ++ r) with
    | some res => some res
    | none => match52Go ds r k

/-- Full anchored match of `_RE_52W = ^(\d+(?:\.\d{1,2})?)(-?\d+\.?\d*%)$`
in Python backtracking order, returning the two capture groups. -/
def match52 (cs : List Char) : Option (List Char × List Char) :=
  let ds := cs.takeWhile isDig
  let r := cs.dropWhile isDig
  if ds = [] then none else match52Go ds r ds.length

/-- Full anchored match of `_RE_DIV_AMT = ^([\d.]+)\s*\(([\d.]+)%\)$`,
returning the two capture groups.  For this pattern backtracking admits a
unique acceptance: maximal `[\d.]` run, maximal whitespace run, `(`,
maximal `[\d.]` run, `%)` at the end. -/
def matchDiv (cs : List Char) : Option (List Char × List Char) :=
  let dd : Char → Bool := fun c => isDig c ∨ c = '.'
  let g1 := cs.takeWhile dd
  let r1 := cs.dropWhile dd
  if g1 = [] then none
  else
    match r1.dropWhile isPyWs with
    | c :: r3 =>
      if c = '(' then
        let g2 := r3.takeWhile dd
        let r4 := r3.dropWhile dd
        if g2 = [] then none
        else if r4 = ['%', ')'] then some (g1, g2)
        else none
      else none
    | [] => none

/-- The three splitting functions of scraper.py, as a tag. -/
inductive SplitKind where
  | k52w : SplitKind
  | twoPct : SplitKind
  | divAmt : SplitKind
deriving DecidableEq

/-- `_to_float` inside `_split_two_pcts`: a bare dash is `None`, otherwise
`float(p.replace('%', '')) / 100`; a float failure raises (`none`). -/
def toFloatTok (p : String) : Option Value :=
  if p = "-" then some .vNone
  else (pyFloat (dropAll '%' p)).map fun f => .vFloat f.div100

/-- `_split_52w` (scraper.py lines 42-51). -/
def split52 (v : Value) : Option (Value × Value) :=
  match v with
  | .vStr s =>
    match match52 (pyStripChars s.data) with
    | some g =>
      match pyFloatChars g.1, pyFloatChars (g.2.filter (· ≠ '%')) with
      | some a, some b => some (.vFloat a, .vFloat b.div100)
      | _, _ => none
    | none => some (.vStr s, .vNone)
  | v => some (v, .vNone)

/-- `_split_two_pcts` (scraper.py lines 56-67). -/
def splitTwoPcts (v : Value) : Option (Value × Value) :=
  match v with
  | .vStr s =>
    match findTokens (pyStrip s) with
    | [a, b] =>
      match toFloatTok a, toFloatTok b with
      | some x, some y => some (x, y)
      | _, _ => none
    | _ => some (.vStr s, .vNone)
  | v => some (v, .vNone)

/-- `_split_dividend_amt` (scraper.py lines 72-81). -/
def splitDivAmt (v : Value) : Option (Value × Value) :=
  match v with
  | .vStr s =>
    match matchDiv (pyStripChars s.data) with
    | some g =>
      match pyFloatChars g.1, pyFloatChars g.2 with
      | some a, some b => some (.vFloat a, .vFloat b.div100)
      | _, _ => none
    | none => some (.vStr s, .vNone)
  | v => some (v, .vNone)

/-- Dispatch a splitter tag to its function. -/
def applySplit : SplitKind → Value → Option (Value × Value)
  | .k52w, v => split52 v
  | .twoPct, v => splitTwoPcts v
  | .divAmt, v => splitDivAmt v

/-- `MULTI_VALUE_SPLIT_MAP` (scraper.py lines 85-95): original key to
(primary key, secondary key, splitter). -/
def splitMap : List (String × String × String × SplitKind) :=
  [("52w_high", "52w_high", "52w_high_pct", .k52w),
   ("52w_low", "52w_low", "52w_low_pct", .k52w),
   ("eps_past_3_5y", "eps_past_3y", "eps_past_5y", .twoPct),
   ("sales_past_3_5y", "sales_past_3y", "sales_past_5y", .twoPct),
   ("dividend_gr._3_5y", "dividend_gr_3y", "dividend_gr_5y", .twoPct),
   ("eps_sales_surpr.", "eps_surprise", "sales_surprise", .twoPct),
   ("volatility", "volatility_week", "volatility_month", .twoPct),
   ("dividend_ttm", "dividend_ttm", "dividend_yield", .divAmt),
   ("dividend_est.", "dividend_est", "dividend_yield_est", .divAmt)]

/-- First-match association lookup (Python `dict` lookup; all embedded
tables have pairwise distinct keys, so first match equals the dict). -/
def alookup {α : Type} (l : List (String × α)) (k : String) : Option α :=
  (l.find? fun p => p.1 = k).map fun p => p.2

/-- Lookup in `MULTI_VALUE_SPLIT_MAP`. -/
def lookupSplitMap (k : String) : Option (String × String × SplitKind) :=
  alookup splitMap k

/-- Python dict assignment `d[k] = v` on an insertion-ordered
association list: overwrite in place if present, else append. -/
def dinsert : List (String × Value) → String → Value → List (String × Value)
  | [], k, v => [(k, v)]
  | (k1, v1) :: rest, k, v =>
    if k1 = k then (k1, v) :: rest else (k1, v1) :: dinsert rest k v

/-- Loop body of `split_multi_value_fields` over the remaining items,
carrying the `result` dict; `none` models a raised exception from a
splitter. -/
def smvfAux (acc : List (String × Value)) : List (String × Value) → Option (List (String × Value))
  | [] => some acc
  | (k, v) :: rest =>
    match lookupSplitMap k with
    | some e =>
      match applySplit e.2.2 v with
      | some pv =>
        let acc1 := dinsert acc e.1 pv.1
        let acc2 := if pv.2 ≠ .vNone then dinsert acc1 e.2.1 pv.2 else acc1
        smvfAux acc2 rest
      | none => none
    | none => smvfAux (dinsert acc k v) rest

/-- `split_multi_value_fields` (scraper.py lines 98-113): post-process a
scraped stock dict, splitting every multi-value field; `none` models a
raised exception. -/
def split_multi_value_fields (d : List (String × Value)) : Option (List (String × Value)) :=
  smvfAux [] d

/-- Per-grammar match success on an (already stripped) character list:
`_RE_52W` match, exactly two `_RE_PCT_TOKEN` tokens, or `_RE_DIV_AMT`
match. -/
def matchesGrammar : SplitKind → List Char → Bool
  | .k52w, cs => (match52 cs).isSome
  | .twoPct, cs => (scanTokensF cs.length cs).length = 2
  | .divAmt, cs => (matchDiv cs).isSome

/-- The `mapping` dict of `parse_finviz_key` (load_data.py lines 46-104):
scraper JSON keys to database column names. -/
def finvizKeyMap : List (String × String) :=
  [("index", "market_index"),
   ("change", "price_change"),
   ("p_e", "pe_ratio"),
   ("forward_p_e", "forward_pe"),
   ("peg", "peg_ratio"),
   ("p_s", "ps_ratio"),
   ("p_b", "pb_ratio"),
   ("p_c", "pc_ratio"),
   ("p_fcf", "pfcf_ratio"),
   ("ev_sales", "ev_sales"),
   ("ev_ebitda", "ev_ebitda"),
   ("price", "price"),
   ("volume", "volume"),
   ("market_cap", "market_cap"),
   ("enterprise_value", "enterprise_value"),
   ("avg_volume", "avg_volume"),
   ("rel_volume", "rel_volume"),
   ("prev_close", "prev_close"),
   ("eps_(ttm)", "eps_ttm"),
   ("eps_ttm", "eps_ttm"),
   ("eps_next_y", "eps_growth_next_y"),
   ("eps_next_q", "eps_next_q"),
   ("eps_this_y", "eps_this_y"),
   ("eps_next_5y", "eps_growth_next_5y"),
   ("eps_past_5y", "eps_past_5y"),
   ("eps_y_y_ttm", "eps_growth_ttm"),
   ("eps_qoq", "eps_qoq"),
   ("sales_y_y_ttm", "revenue_growth_ttm"),
   ("revenue_growth_ttm", "revenue_growth_ttm"),
   ("sales_qyq", "sales_qyq"),
   ("income", "income"),
   ("sales", "sales"),
   ("profit_margin", "profit_margin"),
   ("oper._margin", "operating_margin"),
   ("operating_margin", "operating_margin"),
   ("gross_margin", "gross_margin"),
   ("roa", "roa"),
   ("roe", "roe"),
   ("roi", "roi"),
   ("roic", "roic"),
   ("rsi_(14)", "rsi"),
   ("rsi", "rsi"),
   ("beta", "beta"),
   ("atr_(14)", "atr"),
   ("atr", "atr"),
   ("sma20", "sma20"),
   ("sma50", "sma50"),
   ("sma200", "sma200"),
   ("insider_own", "insider_own"),
   ("insider_trans", "insider_trans"),
   ("inst_own", "inst_own"),
   ("inst_trans", "inst_trans"),
   ("shs_outstand", "shares_outstanding"),
   ("shs_float", "shares_float"),
   ("short_float", "short_float"),
   ("short_ratio", "short_ratio"),
   ("short_interest", "short_interest"),
   ("debt_eq", "debt_to_equity"),
   ("debt_to_eq", "debt_to_equity"),
   ("lt_debt_eq", "lt_debt_to_equity"),
   ("current_ratio", "current_ratio"),
   ("quick_ratio", "quick_ratio"),
   ("cash_sh", "cash_per_share"),
   ("book_sh", "book_per_share"),
   ("book_value", "book_per_share"),
   ("dividend_ex-date", "ex_dividend_date"),
   ("ex-dividend_date", "ex_dividend_date"),
   ("payout", "payout_ratio"),
   ("target_price", "target_price"),
   ("recom", "recommendation"),
   ("recommendation", "recommendation"),
   ("perf_week", "perf_week"),
   ("perf_month", "perf_month"),
   ("perf_quarter", "perf_quarter"),
   ("perf_half_y", "perf_half_y"),
   ("perf_year", "perf_year"),
   ("perf_ytd", "perf_ytd"),
   ("perf_3y", "perf_3y"),
   ("perf_5y", "perf_5y"),
   ("perf_10y", "perf_10y"),
   ("employees", "employees"),
   ("ipo", "ipo_date"),
   ("earnings", "earnings_date"),
   ("option_short", "option_short"),
   ("52w_high", "week_52_high"),
   ("52w_high_pct", "week_52_high_pct"),
   ("52w_low", "week_52_low"),
   ("52w_low_pct", "week_52_low_pct"),
   ("volatility_week", "volatility_week"),
   ("volatility_month", "volatility_month"),
   ("eps_past_3y", "eps_past_3y"),
   ("sales_past_3y", "sales_past_3y"),
   ("sales_past_5y", "sales_past_5y"),
   ("dividend_ttm", "dividend_ttm"),
   ("dividend_yield", "dividend_yield"),
   ("dividend_est", "dividend_est"),
   ("dividend_yield_est", "dividend_yield_est"),
   ("dividend_gr_3y", "dividend_gr_3y"),
   ("dividend_gr_5y", "dividend_gr_5y"),
   ("eps_surprise", "eps_surprise"),
   ("sales_surprise", "sales_surprise")]

/-- `parse_finviz_key` (load_data.py lines 39-105). -/
def parse_finviz_key (k : String) : Option String := alookup finvizKeyMap k

/-- `SQLITE_TO_PG` (cron_scrape.py lines 30-72): SQLite column names to
Postgres column names (percentage-unit `_pct` suffix). -/
def SQLITE_TO_PG : List (String × String) :=
  [("price_change", "price_change_pct"),
   ("profit_margin", "profit_margin_pct"),
   ("operating_margin", "operating_margin_pct"),
   ("gross_margin", "gross_margin_pct"),
   ("roe", "roe_pct"),
   ("roa", "roa_pct"),
   ("roi", "roi_pct"),
   ("roic", "roic_pct"),
   ("eps_growth_ttm", "eps_growth_ttm_pct"),
   ("revenue_growth_ttm", "revenue_growth_ttm_pct"),
   ("eps_growth_next_y", "eps_growth_next_y_pct"),
   ("eps_growth_next_5y", "eps_growth_next_5y_pct"),
   ("eps_past_3y", "eps_past_3y_pct"),
   ("eps_past_5y", "eps_past_5y_pct"),
   ("sales_past_3y", "sales_past_3y_pct"),
   ("sales_past_5y", "sales_past_5y_pct"),
   ("sales_qyq", "sales_qyq_pct"),
   ("eps_qoq", "eps_qoq_pct"),
   ("volatility_week", "volatility_week_pct"),
   ("volatility_month", "volatility_month_pct"),
   ("insider_own", "insider_own_pct"),
   ("insider_trans", "insider_trans_pct"),
   ("inst_own", "inst_own_pct"),
   ("inst_trans", "inst_trans_pct"),
   ("short_float", "short_float_pct"),
   ("dividend_yield", "dividend_yield_pct"),
   ("dividend_yield_est", "dividend_yield_est_pct"),
   ("payout_ratio", "payout_ratio_pct"),
   ("dividend_gr_3y", "dividend_gr_3y_pct"),
   ("dividend_gr_5y", "dividend_gr_5y_pct"),
   ("eps_surprise", "eps_surprise_pct"),
   ("sales_surprise", "sales_surprise_pct"),
   ("perf_week", "perf_week_pct"),
   ("perf_month", "perf_month_pct"),
   ("perf_quarter", "perf_quarter_pct"),
   ("perf_half_y", "perf_half_y_pct"),
   ("perf_year", "perf_year_pct"),
   ("perf_ytd", "perf_ytd_pct"),
   ("perf_3y", "perf_3y_pct"),
   ("perf_5y", "perf_5y_pct"),
   ("perf_10y", "perf_10y_pct")]

/-- `PG_TO_API` (app.py lines 42-85): Postgres column names back to the
API-facing (unit-suffix-free) names. -/
def PG_TO_API : List (String × String) :=
  [("price_change_pct", "price_change"),
   ("profit_margin_pct", "profit_margin"),
   ("operating_margin_pct", "operating_margin"),
   ("gross_margin_pct", "gross_margin"),
   ("roe_pct", "roe"),
   ("roa_pct", "roa"),
   ("roi_pct", "roi"),
   ("roic_pct", "roic"),
   ("eps_growth_ttm_pct", "eps_growth_ttm"),
   ("revenue_growth_ttm_pct", "revenue_growth_ttm"),
   ("eps_growth_next_y_pct", "eps_growth_next_y"),
   ("eps_growth_next_5y_pct", "eps_growth_next_5y"),
   ("eps_past_3y_pct", "eps_past_3y"),
   ("eps_past_5y_pct", "eps_past_5y"),
   ("sales_past_3y_pct", "sales_past_3y"),
   ("sales_past_5y_pct", "sales_past_5y"),
   ("sales_qyq_pct", "sales_qyq"),
   ("eps_qoq_pct", "eps_qoq"),
   ("volatility_week_pct", "volatility_week"),
   ("volatility_month_pct", "volatility_month"),
   ("insider_own_pct", "insider_own"),
   ("insider_trans_pct", "insider_trans"),
   ("inst_own_pct", "inst_own"),
   ("inst_trans_pct", "inst_trans"),
   ("short_float_pct", "short_float"),
   ("dividend_yield_pct", "dividend_yield"),
   ("dividend_yield_est_pct", "dividend_yield_est"),
   ("payout_ratio_pct", "payout_ratio"),
   ("dividend_gr_3y_pct", "dividend_gr_3y"),
   ("dividend_gr_5y_pct", "dividend_gr_5y"),
   ("eps_surprise_pct", "eps_surprise"),
   ("sales_surprise_pct", "sales_surprise"),
   ("perf_week_pct", "perf_week"),
   ("perf_month_pct", "perf_month"),
   ("perf_quarter_pct", "perf_quarter"),
   ("perf_half_y_pct", "perf_half_y"),
   ("perf_year_pct", "perf_year"),
   ("perf_ytd_pct", "perf_ytd"),
   ("perf_3y_pct", "perf_3y"),
   ("perf_5y_pct", "perf_5y"),
   ("perf_10y_pct", "perf_10y")]

/-- Outcome of fetching and parsing one ticker page, abstracting the HTTP
request and BeautifulSoup layer of `scrape_stock`: either some step raised
(network/parse exception), or a page was obtained carrying the displayed
company name and the snapshot table as (label, cell-fragment-texts) rows
(the fragments are what `_extract_cell_texts` returns for the value cell). -/
inductive Fetch where
  | raises : Fetch
  | page : String → List (String × List String) → Fetch

/-- Label normalization of scrape_stock line 168: lowercase, spaces and
slashes to underscores. -/
def labelToKey (label : String) : String :=
  String.mk (label.data.map fun c => if c = ' ' ∨ c = '/' then '_' else c.toLower)

/-- Dict entries contributed by one (already normalized) label/cell pair,
scraper.py lines 166-186: skip empty or all-dash cells; a multi-value key
with ≥2 fragments is pre-split positionally with `_parse_value`; a
multi-value key with one fragment keeps the raw text for post-processing;
any other key stores the parsed single (or space-joined) text. -/
def cellEntries (key : String) (texts : List String) : List (String × Value) :=
  if texts = [] ∨ texts.all (· = "-") then []
  else
    match lookupSplitMap key with
    | some e =>
      match texts with
      | t0 :: t1 :: _ => [(e.1, parse_value t0), (e.2.1, parse_value t1)]
      | [t0] => [(key, .vStr t0)]
      | [] => []
    | none =>
      let value := match texts with
        | [t] => t
        | ts => " ".intercalate ts
      if value ≠ "" ∧ value ≠ "-" then [(key, parse_value value)] else []

/-- Insert a list of entries into a dict in order (repeated dict
assignments). -/
def dinsertAll (d : List (String × Value)) (es : List (String × Value)) : List (String × Value) :=
  es.foldl (fun d e => dinsert d e.1 e.2) d

/-- `FinvizScraper.scrape_stock` (scraper.py lines 147-193) over an
abstract fetch outcome: `none` on a raised exception, `none` for the
`"Affiliate"` sentinel company name, otherwise the scraped dict seeded
with ticker and company name, filled from the table rows and passed
through `split_multi_value_fields` (whose exception is swallowed into
`none` by the surrounding `except`). -/
def scrape_stock (ticker : String) : Fetch → Option (List (String × Value))
  | .raises => none
  | .page companyName rows =>
    if companyName = "Affiliate" then none
    else
      let data0 : List (String × Value) :=
        [("ticker", .vStr ticker), ("company_name", .vStr companyName)]
      let data := rows.foldl
        (fun d row => dinsertAll d (cellEntries (labelToKey row.1) row.2)) data0
      split_multi_value_fields data

/-- `FinvizScraper.scrape_multiple` (scraper.py lines 221-237) over a list
of tickers paired with their abstract fetch outcomes: a truthy scraped
dict is appended to the results, anything else (exception or affiliate
sentinel alike, both `None`) is appended to the `affiliates` skip list. -/
def scrape_multiple (jobs : List (String × Fetch)) : List (List (String × Value)) × List String :=
  jobs.foldl
    (fun acc job =>
      match scrape_stock job.1 job.2 with
      | some d => if d ≠ [] then (acc.1 ++ [d], acc.2) else (acc.1, acc.2 ++ [job.1])
      | none => (acc.1, acc.2 ++ [job.1]))
    ([], [])

/-- The (primary, secondary) value pair stored by the pre-split fragment
path of `scrape_stock` (lines 177-179): both fragments go through
`_parse_value`. -/
def presplitPair (t0 t1 : String) : Value × Value := (parse_value t0, parse_value t1)

/-- A single percentage-or-dash token: the `_RE_PCT_TOKEN` matcher
consumes the whole string as one token. -/
def isPctTok (t : String) : Bool := pctTokAt t.data = some (t.data, [])

/-- `clean_value` (load_data.py lines 6-15): `None`, `''` and `'N/A'`
become `None`; a string is de-comma-ed, stripped, and parsed as float
(with a dot) or int, the cleaned string surviving a parse failure;
non-strings pass through. -/
def clean_value (v : Value) : Value :=
  if v = .vNone ∨ v = .vStr "" ∨ v = .vStr "N/A" then .vNone
  else
    match v with
    | .vStr s =>
      let s2 := pyStrip (dropAll ',' s)
      if strHas s2 '.' then
        match pyFloat s2 with
        | some f => .vFloat f
        | none => .vStr s2
      else
        match pyInt s2 with
        | some n => .vInt n
        | none => .vStr s2
    | v => v

/-- Python `str.split()` with no argument: split on whitespace runs,
discarding empty pieces. -/
def splitWs (cs : List Char) : List (List Char) :=
  (cs.foldr
    (fun c acc =>
      if isPyWs c then [] :: acc
      else
        match acc with
        | w :: ws => (c :: w) :: ws
        | [] => [[c]])
    []).filter (· ≠ [])

/-- `clean_company_name` (load_data.py lines 17-22): falsy input becomes
`None`; a string loses CR/LF and has its whitespace runs collapsed to
single spaces.  A truthy non-string raises (`none`), since Python would
fail on `.replace`. -/
def clean_company_name (v : Value) : Option Value :=
  if truthy v = false then some .vNone
  else
    match v with
    | .vStr s =>
      let s1 := (s.data.filter fun c => c ≠ '\r' ∧ c ≠ '\n')
      some (.vStr (" ".intercalate ((splitWs s1).map String.mk)))
    | _ => none

/-- `stock.get(key)`: dict lookup defaulting to `None`. -/
def sGet (s : List (String × Value)) (k : String) : Value := (alookup s k).getD .vNone

/-- Ambient inputs of one `load_data` run: the CSV industry map keyed by
ticker, today's ISO date string, and the `datetime.now()` timestamp value
written into `last_updated`. -/
structure LoadEnv where
  imap : List (String × String × String)
  today : String
  now : Value

/-- The keys excluded from the generic column loop of load_data line 137. -/
def loadSkipKeys : List String :=
  ["ticker", "company_name", "industry", "sector", "scraped_at"]

/-- The dynamic (column, value) list for the `stocks` INSERT OR REPLACE,
load_data.py lines 127-145: identity columns first, then every remaining
record key that maps to a known column and cleans to a non-`None` value.
`none` models the exception from `clean_company_name` on a truthy
non-string name. -/
def buildStocksRow (env : LoadEnv) (s : List (String × Value)) : Option (List (String × Value)) :=
  (clean_company_name (sGet s "company_name")).map fun cname =>
    let csvd : Value × Value :=
      match sGet s "ticker" with
      | .vStr t =>
        match alookup env.imap t with
        | some p => (.vStr p.1, .vStr p.2)
        | none => (.vNone, .vNone)
      | _ => (.vNone, .vNone)
    let industry := pyOr csvd.1 (sGet s "industry")
    let sector := pyOr csvd.2 (sGet s "sector")
    let extras := s.foldl
      (fun acc kv =>
        if kv.1 ∈ loadSkipKeys then acc
        else
          match parse_finviz_key kv.1 with
          | none => acc
          | some col =>
            match clean_value kv.2 with
            | .vNone => acc
            | cv => acc ++ [(col, cv)])
      []
    [("ticker", sGet s "ticker"), ("company_name", cname), ("industry", industry),
     ("sector", sector), ("last_updated", env.now)] ++ extras

/-- The `stock_history` row of load_data.py lines 151-165: the fixed
21-value tuple, each entry passed through `clean_value`. -/
def buildHistRow (env : LoadEnv) (s : List (String × Value)) : List Value :=
  [sGet s "ticker", .vStr env.today, sGet s "price", sGet s "market_cap", sGet s "volume",
   sGet s "p_e", sGet s "p_s", sGet s "p_b", sGet s "profit_margin",
   pyOr (sGet s "sales_y_y_ttm") (sGet s "revenue_growth_ttm"),
   pyOr (sGet s "rsi_(14)") (sGet s "rsi"),
   sGet s "beta", sGet s "insider_own", sGet s "inst_own",
   pyOr (sGet s "debt_eq") (sGet s "debt_to_equity"),
   sGet s "target_price", pyOr (sGet s "recom") (sGet s "recommendation"),
   sGet s "perf_week", sGet s "perf_month", sGet s "perf_quarter",
   sGet s "perf_year"].map clean_value

/-- The two tables of setup_database.py: `stocks` rows as their explicit
(column, value) lists (absent columns are NULL), keyed by the `ticker`
column (PRIMARY KEY); `stock_history` rows as the fixed 21-value tuples,
with the UNIQUE(ticker, date) key in positions 0 and 1. -/
structure DB where
  stocks : List (List (String × Value))
  hist : List (List Value)

/-- Lookup of the `stocks` row for a ticker value. -/
def stocksFind (tbl : List (List (String × Value))) (tv : Value) : Option (List (String × Value)) :=
  tbl.find? fun r => alookup r "ticker" = some tv

/-- `INSERT OR REPLACE INTO stocks`: the conflicting row for the same
ticker (if any) is deleted and the new row inserted whole. -/
def insertOrReplaceStocks (tbl : List (List (String × Value))) (row : List (String × Value)) :
    List (List (String × Value)) :=
  (tbl.filter fun r => ¬alookup r "ticker" = alookup row "ticker") ++ [row]

/-- Lookup of the history row for a (ticker, date) key pair. -/
def histFind (tbl : List (List Value)) (tk dt : Value) : Option (List Value) :=
  tbl.find? fun r => r.get? 0 = some tk ∧ r.get? 1 = some dt

/-- `INSERT OR IGNORE INTO stock_history` under UNIQUE(ticker, date): the
insert is dropped when a row with the same key values already exists. -/
def insertOrIgnoreHist (tbl : List (List Value)) (row : List Value) : List (List Value) :=
  if tbl.any (fun r => r.get? 0 = row.get? 0 ∧ r.get? 1 = row.get? 1) then tbl
  else tbl ++ [row]

/-- One iteration of the `load_data` loop (load_data.py lines 122-165) for
a single record: skip falsy tickers, else upsert the `stocks` row
(insert-or-replace) and append the history snapshot (insert-or-ignore).
`none` models a propagated exception. -/
def loadStock (env : LoadEnv) (db : DB) (s : List (String × Value)) : Option DB :=
  if truthy (sGet s "ticker") = false then some db
  else
    (buildStocksRow env s).map fun row =>
      ⟨insertOrReplaceStocks db.stocks row,
       insertOrIgnoreHist db.hist (buildHistRow env s)⟩

/-- `pg_row_to_api` (app.py lines 89-99): rename each Postgres column to
its API name via `PG_TO_API` (identity for unmapped columns). -/
def pg_row_to_api (cols : List String) (row : List Value) : List (String × Value) :=
  (cols.zip row).map fun cv => ((alookup PG_TO_API cv.1).getD cv.1, cv.2)

/-- The SQLite branch of the API row construction (app.py line 586):
columns are exposed under their own names. -/
def sqlite_row_to_api (cols : List String) (row : List Value) : List (String × Value) :=
  (cols.zip row).map fun cv => (cv.1, cv.2)

/-- The Postgres column a record key is stored under in `update_postgres`
(cron_scrape.py line 124-128): the SQLite column name translated through
`SQLITE_TO_PG` (identity for unmapped columns). -/
def pgLoadCol (k : String) : Option String :=
  (parse_finviz_key k).map fun c => (alookup SQLITE_TO_PG c).getD c

/-- An entry is a fixed point of the splitting pass: if its key is a
multi-value key, re-splitting its value reproduces the value under the
same (primary) key with no secondary value. -/
def goodEntry (k : String) (v : Value) : Prop :=
  ∀ e, lookupSplitMap k = some e → e.1 = k ∧ applySplit e.2.2 v = some (v, .vNone)

/-- A dict produced by `split_multi_value_fields`: keys are pairwise
distinct and every entry is a fixed point of re-splitting. -/
def GoodDict (d : List (String × Value)) : Prop :=
  (d.map Prod.fst).Nodup ∧ ∀ kv ∈ d, goodEntry kv.1 kv.2

/-! ### Helper lemmas -/

theorem isDig_ne_of {c x : Char} (h : isDig c = true) (hx : isDig x = false) : c ≠ x := by
  intro e
  subst e
  rw [h] at hx
  exact Bool.noConfusion hx

theorem not_ws_of_isDig {c : Char} (h : isDig c = true) : isPyWs c = false := by
  cases hw : isPyWs c with
  | false => rfl
  | true =>
    exfalso
    simp only [isPyWs, decide_eq_true_eq] at hw
    rcases hw with rfl | rfl | rfl | rfl | rfl | rfl <;> exact absurd h (by decide)

theorem dropWhile_eq_self_of_none {p : Char → Bool} :
    ∀ {l : List Char}, (∀ c ∈ l, p c = false) → l.dropWhile p = l := by
  intro l h
  cases l with
  | nil => rfl
  | cons c r => simp [List.dropWhile, h c (List.mem_cons_self c r)]

theorem pyStripChars_eq_self {l : List Char} (h : ∀ c ∈ l, isPyWs c = false) :
    pyStripChars l = l := by
  unfold pyStripChars dropTrail
  rw [dropWhile_eq_self_of_none h]
  rw [dropWhile_eq_self_of_none (fun c hc => h c (List.mem_reverse.mp hc))]
  exact List.reverse_reverse l

theorem takeWhile_app {p : Char → Bool} :
    ∀ {a : List Char} (b : List Char), (∀ c ∈ a, p c = true) →
      (a ++ b).takeWhile p = a ++ b.takeWhile p := by
  intro a
  induction a with
  | nil => intro b _; rfl
  | cons c r ih =>
    intro b h
    simp only [List.cons_append, List.takeWhile_cons, h c (List.mem_cons_self c r), if_true]
    rw [ih b (fun x hx => h x (List.mem_cons_of_mem c hx))]

theorem dropWhile_app {p : Char → Bool} :
    ∀ {a : List Char} (b : List Char), (∀ c ∈ a, p c = true) →
      (a ++ b).dropWhile p = b.dropWhile p := by
  intro a
  induction a with
  | nil => intro b _; rfl
  | cons c r ih =>
    intro b h
    simp only [List.cons_append, List.dropWhile_cons, h c (List.mem_cons_self c r), if_true]
    exact ih b (fun x hx => h x (List.mem_cons_of_mem c hx))

theorem takeWhile_eq_self_of_all {p : Char → Bool} {l : List Char}
    (h : ∀ c ∈ l, p c = true) : l.takeWhile p = l :=
  List.takeWhile_eq_self_iff.mpr h

theorem dropWhile_eq_nil_of_all {p : Char → Bool} :
    ∀ {l : List Char}, (∀ c ∈ l, p c = true) → l.dropWhile p = [] := by
  intro l
  induction l with
  | nil => intro _; rfl
  | cons c r ih =>
    intro h
    simp only [List.dropWhile_cons, h c (List.mem_cons_self c r), if_true]
    exact ih (fun x hx => h x (List.mem_cons_of_mem c hx))

theorem filter_ne_eq_self {l : List Char} {x : Char} (h : ∀ c ∈ l, c ≠ x) :
    l.filter (· ≠ x) = l :=
  List.filter_eq_self.mpr fun a ha => decide_eq_true (h a ha)

theorem pyFloatMag_digits {ds : List Char} (h : ds ≠ [])
    (hd : ∀ c ∈ ds, isDig c = true) : pyFloatMag ds = some ⟨digitsVal ds, 0⟩ := by
  unfold pyFloatMag
  rw [takeWhile_eq_self_of_all hd, dropWhile_eq_nil_of_all hd]
  simp [h]

theorem pyFloatMag_digits_dot {ds ds2 : List Char} (h : ds ≠ [])
    (hd : ∀ c ∈ ds, isDig c = true) (hd2 : ∀ c ∈ ds2, isDig c = true) :
    pyFloatMag (ds ++ '.' :: ds2) = some ⟨digitsVal (ds ++ ds2), ds2.length⟩ := by
  unfold pyFloatMag
  rw [takeWhile_app ('.' :: ds2) hd, dropWhile_app ('.' :: ds2) hd]
  simp only [List.takeWhile_cons, List.dropWhile_cons]
  rw [show isDig '.' = false from by decide]
  simp only [Bool.false_eq_true, if_false, List.append_nil]
  rw [takeWhile_eq_self_of_all hd2, dropWhile_eq_nil_of_all hd2]
  simp [h, pyExpPart]

theorem pyFloatChars_pos {body : List Char} {f : PyFloat} (hne : body ≠ [])
    (hhead : ∀ c, body.head? = some c → isDig c = true)
    (hws : ∀ c ∈ body, isPyWs c = false)
    (hmag : pyFloatMag body = some f) : pyFloatChars body = some f := by
  unfold pyFloatChars
  rw [pyStripChars_eq_self hws]
  cases body with
  | nil => exact absurd rfl hne
  | cons c r =>
    have hc : isDig c = true := hhead c rfl
    show (if c = '+' then pyFloatMag r
      else if c = '-' then Option.map PyFloat.neg (pyFloatMag r)
      else pyFloatMag (c :: r)) = some f
    rw [if_neg (isDig_ne_of hc (by decide)), if_neg (isDig_ne_of hc (by decide))]
    exact hmag

theorem pyFloatChars_neg {body : List Char} {f : PyFloat}
    (hws : ∀ c ∈ body, isPyWs c = false)
    (hmag : pyFloatMag body = some f) : pyFloatChars ('-' :: body) = some f.neg := by
  unfold pyFloatChars
  rw [pyStripChars_eq_self]
  · show (if ('-' : Char) = '+' then pyFloatMag body
      else if ('-' : Char) = '-' then Option.map PyFloat.neg (pyFloatMag body)
      else pyFloatMag ('-' :: body)) = some f.neg
    rw [if_neg (show ¬(('-' : Char) = '+') from by decide), if_pos rfl, hmag]
    rfl
  · intro c hc
    rcases List.mem_cons.mp hc with rfl | hc2
    · decide
    · exact hws c hc2

/-- Inversion of a successful unsigned percentage-token match: the token is
a nonempty digit run, an optional dot with a digit run, then `%`. -/
theorem pctTokCore_inv {cs tok rest : List Char} (h : pctTokCore cs = some (tok, rest)) :
    ∃ (ds ds2 : List Char) (dot : Bool),
      ds ≠ [] ∧ (∀ c ∈ ds, isDig c = true) ∧ (∀ c ∈ ds2, isDig c = true) ∧
      tok = ds ++ (if dot then '.' :: ds2 else []) ++ ['%'] := by
  have hdall : ∀ c ∈ cs.takeWhile isDig, isDig c = true :=
    fun c hc => List.mem_takeWhile_imp hc
  simp only [pctTokCore] at h
  split at h
  · exact Option.noConfusion h
  · rename_i hds
    split at h
    · rename_i c r2 hr1
      split at h
      · simp only [Option.some.injEq, Prod.mk.injEq] at h
        exact ⟨cs.takeWhile isDig, [], false, hds, hdall, by simp, by simp [← h.1]⟩
      · split at h
        · split at h
          · split at h
            · simp only [Option.some.injEq, Prod.mk.injEq] at h
              exact ⟨cs.takeWhile isDig, r2.takeWhile isDig, true, hds, hdall,
                fun x hx => List.mem_takeWhile_imp hx, by simp [← h.1]⟩
            · exact Option.noConfusion h
          · exact Option.noConfusion h
        · exact Option.noConfusion h
    · exact Option.noConfusion h

/-- Inversion of a full single-token match of `_RE_PCT_TOKEN`: the token
is a bare dash, or an optional minus, digits, an optional dot with
digits, and a final `%`. -/
theorem isPctTok_cases {t : String} (h : isPctTok t = true) :
    t.data = ['-'] ∨
      ∃ (neg : Bool) (ds ds2 : List Char) (dot : Bool),
        ds ≠ [] ∧ (∀ c ∈ ds, isDig c = true) ∧ (∀ c ∈ ds2, isDig c = true) ∧
        t.data = (if neg then ['-'] else []) ++ ds ++ (if dot then '.' :: ds2 else []) ++ ['%'] := by
  rw [isPctTok, decide_eq_true_eq] at h
  rcases hcs : t.data with _ | ⟨c, r⟩
  · rw [hcs] at h
    simp only [pctTokAt] at h
    exact Option.noConfusion h
  · rw [hcs] at h
    simp only [pctTokAt] at h
    by_cases hcneg : c = '-'
    · rw [if_pos hcneg] at h
      split at h
      · rename_i tr hcore
        simp only [Option.some.injEq, Prod.mk.injEq] at h
        right
        obtain ⟨ds, ds2, dot, hne, hd, hd2, htok⟩ := pctTokCore_inv hcore
        refine ⟨true, ds, ds2, dot, hne, hd, hd2, ?_⟩
        injection h.1 with h1 h2
        have hr : r = ds ++ (if dot then '.' :: ds2 else []) ++ ['%'] := by
          rw [← h2, htok]
        rw [← h1, hr]
        simp
      · rename_i hcore
        simp only [Option.some.injEq, Prod.mk.injEq] at h
        left
        exact h.1.symm
    · rw [if_neg hcneg] at h
      right
      obtain ⟨ds, ds2, dot, hne, hd, hd2, htok⟩ := pctTokCore_inv h
      refine ⟨false, ds, ds2, dot, hne, hd, hd2, ?_⟩
      simpa using htok

theorem strHas_of_mem {s : String} {c : Char} (h : c ∈ s.data) : strHas s c = true := by
  rw [strHas, List.contains]
  exact List.elem_eq_true_of_mem h

/-- On any single token of the dual-percentage grammar, the generic value
parser of the scraper and the `_to_float` conversion inside
`_split_two_pcts` agree: both send a bare dash to `None` and a percentage
token to the same fraction. -/
theorem toFloatTok_eq_parse {t : String} (h : isPctTok t = true) :
    toFloatTok t = some (parse_value t) := by
  rcases isPctTok_cases h with hdash | ⟨neg, ds, ds2, dot, hne, hd, hd2, hshape⟩
  · have ht : t = "-" := String.ext (by rw [hdash])
    rw [ht]
    decide
  · have hlen : 0 < ds.length := List.length_pos.mpr hne
    have hmem : '%' ∈ t.data := by
      rw [hshape]
      simp
    have hts : t ≠ "" := by
      intro e
      rw [e] at hshape
      simp at hshape
    have htd : t ≠ "-" := by
      intro e
      rw [e] at hshape
      have := congrArg List.length hshape
      simp [List.length_append] at this
      omega
    have hwsb : ∀ c ∈ ds ++ (if dot then '.' :: ds2 else []), isPyWs c = false := by
      intro c hc
      rcases List.mem_append.mp hc with hc1 | hc2
      · exact not_ws_of_isDig (hd c hc1)
      · cases dot with
        | false => simp at hc2
        | true =>
          simp only [if_true] at hc2
          rcases List.mem_cons.mp hc2 with rfl | hc3
          · decide
          · exact not_ws_of_isDig (hd2 c hc3)
    have hmag : ∃ f : PyFloat, pyFloatMag (ds ++ (if dot then '.' :: ds2 else [])) = some f := by
      cases dot with
      | false =>
        rw [if_neg (by decide), List.append_nil]
        exact ⟨_, pyFloatMag_digits hne hd⟩
      | true =>
        rw [if_pos rfl]
        exact ⟨_, pyFloatMag_digits_dot hne hd hd2⟩
    obtain ⟨f, hmag⟩ := hmag
    have hbody_ne : ds ++ (if dot then '.' :: ds2 else []) ≠ [] := by
      intro e
      rcases List.append_eq_nil.mp e with ⟨e1, _⟩
      exact hne e1
    have hchars : ∃ g : PyFloat,
        pyFloatChars ((if neg then ['-'] else []) ++ ds ++ (if dot then '.' :: ds2 else [])) =
          some g := by
      cases neg with
      | true =>
        rw [if_pos rfl]
        exact ⟨f.neg, pyFloatChars_neg hwsb hmag⟩
      | false =>
        rw [if_neg (by decide), List.nil_append]
        refine ⟨f, pyFloatChars_pos hbody_ne ?_ hwsb hmag⟩
        intro c hc
        cases ds with
        | nil => exact absurd rfl hne
        | cons d dr =>
          simp only [List.cons_append, List.head?_cons, Option.some.injEq] at hc
          rw [← hc]
          exact hd d (List.mem_cons_self d dr)
    obtain ⟨g, hchars⟩ := hchars
    have hfilter : t.data.filter (· ≠ '%') =
        (if neg then ['-'] else []) ++ ds ++ (if dot then '.' :: ds2 else []) := by
      rw [hshape, List.filter_append, List.filter_append, List.filter_append]
      have f1 : (if neg then ['-'] else []).filter (· ≠ '%') = (if neg then ['-'] else []) := by
        cases neg <;> decide
      have f2 : ds.filter (· ≠ '%') = ds :=
        filter_ne_eq_self fun c hc => isDig_ne_of (hd c hc) (by decide)
      have f3 : (if dot then '.' :: ds2 else []).filter (· ≠ '%') =
          (if dot then '.' :: ds2 else []) := by
        cases dot with
        | false => simp
        | true =>
          simp only [if_true]
          refine filter_ne_eq_self ?_
          intro c hc
          rcases List.mem_cons.mp hc with rfl | hc2
          · decide
          · exact isDig_ne_of (hd2 c hc2) (by decide)
      rw [f1, f2, f3]
      simp
    have hpy : pyFloat (dropAll '%' t) = some g := by
      show pyFloatChars (t.data.filter (· ≠ '%')) = some g
      rw [hfilter]
      exact hchars
    rw [toFloatTok, if_neg htd, hpy]
    unfold parse_value
    rw [if_neg (by simp [hts, htd]), if_pos (strHas_of_mem hmem), hpy]
    rfl

theorem strMk_data (t : String) : String.mk t.data = t := by
  cases t
  rfl

theorem isPctTok_no_ws {t : String} (h : isPctTok t = true) :
    ∀ c ∈ t.data, isPyWs c = false := by
  rcases isPctTok_cases h with hdash | ⟨neg, ds, ds2, dot, _, hd, hd2, hshape⟩
  · rw [hdash]
    intro c hc
    rcases List.mem_singleton.mp hc with rfl
    decide
  · rw [hshape]
    intro c hc
    rcases List.mem_append.mp hc with hc1 | hc2
    · rcases List.mem_append.mp hc1 with hc3 | hc4
      · rcases List.mem_append.mp hc3 with hc5 | hc6
        · cases neg with
          | false => simp at hc5
          | true =>
            simp only [if_true] at hc5
            rcases List.mem_singleton.mp hc5 with rfl
            decide
        · exact not_ws_of_isDig (hd c hc6)
      · cases dot with
        | false => simp at hc4
        | true =>
          simp only [if_true] at hc4
          rcases List.mem_cons.mp hc4 with rfl | hc7
          · decide
          · exact not_ws_of_isDig (hd2 c hc7)
    · rcases List.mem_singleton.mp hc2 with rfl
      decide

/-- A percentage-shaped token at the head of a longer list is matched
exactly, leaving the remainder untouched. -/
theorem pctTokCore_shape_head {ds ds2 : List Char} {dot : Bool} (hne : ds ≠ [])
    (hd : ∀ c ∈ ds, isDig c = true) (hd2 : ∀ c ∈ ds2, isDig c = true) (rest : List Char) :
    pctTokCore ((ds ++ (if dot then '.' :: ds2 else []) ++ ['%']) ++ rest) =
      some (ds ++ (if dot then '.' :: ds2 else []) ++ ['%'], rest) := by
  cases dot with
  | false =>
    rw [if_neg (by decide)]
    have he : (ds ++ [] ++ ['%']) ++ rest = ds ++ '%' :: rest := by simp
    rw [he]
    simp only [pctTokCore]
    rw [takeWhile_app ('%' :: rest) hd, dropWhile_app ('%' :: rest) hd]
    simp only [List.takeWhile_cons, List.dropWhile_cons]
    rw [show isDig '%' = false from by decide]
    simp only [Bool.false_eq_true, if_false, List.append_nil]
    rw [if_neg hne]
    simp
  | true =>
    rw [if_pos rfl]
    have he : (ds ++ '.' :: ds2 ++ ['%']) ++ rest = ds ++ '.' :: (ds2 ++ '%' :: rest) := by
      simp
    rw [he]
    simp only [pctTokCore]
    rw [takeWhile_app ('.' :: (ds2 ++ '%' :: rest)) hd,
      dropWhile_app ('.' :: (ds2 ++ '%' :: rest)) hd]
    simp only [List.takeWhile_cons, List.dropWhile_cons]
    rw [show isDig '.' = false from by decide]
    simp only [Bool.false_eq_true, if_false, List.append_nil]
    rw [if_neg hne]
    rw [takeWhile_app ('%' :: rest) hd2, dropWhile_app ('%' :: rest) hd2]
    simp only [List.takeWhile_cons, List.dropWhile_cons]
    rw [show isDig '%' = false from by decide]
    simp only [Bool.false_eq_true, if_false, List.append_nil]
    simp

/-- The full token matcher on a percentage-shaped (non-dash) token
followed by anything consumes exactly the token. -/
theorem pctTokAt_shape_head {neg : Bool} {ds ds2 : List Char} {dot : Bool} (hne : ds ≠ [])
    (hd : ∀ c ∈ ds, isDig c = true) (hd2 : ∀ c ∈ ds2, isDig c = true) (rest : List Char) :
    pctTokAt (((if neg then ['-'] else []) ++ ds ++ (if dot then '.' :: ds2 else []) ++ ['%'])
        ++ rest) =
      some ((if neg then ['-'] else []) ++ ds ++ (if dot then '.' :: ds2 else []) ++ ['%'],
        rest) := by
  cases neg with
  | true =>
    rw [if_pos rfl]
    have he : ((['-'] ++ ds ++ (if dot then '.' :: ds2 else []) ++ ['%']) ++ rest) =
        '-' :: ((ds ++ (if dot then '.' :: ds2 else []) ++ ['%']) ++ rest) := by
      simp
    rw [he]
    simp only [pctTokAt]
    rw [if_pos trivial, pctTokCore_shape_head hne hd hd2 rest]
    simp
  | false =>
    rw [if_neg (by decide)]
    rcases hds : ds with _ | ⟨d, dr⟩
    · exact absurd hds hne
    · have hdig : isDig d = true := hd d (by rw [hds]; exact List.mem_cons_self d dr)
      have he : (([] ++ (d :: dr) ++ (if dot then '.' :: ds2 else []) ++ ['%']) ++ rest) =
          d :: ((dr ++ (if dot then '.' :: ds2 else []) ++ ['%']) ++ rest) := by
        simp
      rw [he]
      simp only [pctTokAt]
      rw [if_neg (isDig_ne_of hdig (by decide))]
      have hcore := @pctTokCore_shape_head (d :: dr) ds2 dot (by simp) (by rw [← hds]; exact hd)
        hd2 rest
      have he2 : ((d :: dr ++ (if dot then '.' :: ds2 else []) ++ ['%']) ++ rest) =
          d :: ((dr ++ (if dot then '.' :: ds2 else []) ++ ['%']) ++ rest) := by
        simp
      rw [he2] at hcore
      rw [hcore]
      simp

theorem scanTokensF_nil : ∀ n, scanTokensF n [] = [] := by
  intro n
  cases n <;> rfl

theorem scanTokensF_step {cs tok rest : List Char} (n : ℕ)
    (h : pctTokAt cs = some (tok, rest)) (hcs : cs ≠ []) :
    scanTokensF (n + 1) cs = tok :: scanTokensF n rest := by
  cases cs with
  | nil => exact absurd rfl hcs
  | cons c r => simp only [scanTokensF, h]

/-- The findall scan over a two-token input. -/
theorem scan_two {a b : List Char} (ha : a ≠ []) (hb : b ≠ [])
    (h0 : pctTokAt (a ++ b) = some (a, b)) (h1 : pctTokAt b = some (b, [])) :
    scanTokensF (a ++ b).length (a ++ b) = [a, b] := by
  have hla : 0 < a.length := List.length_pos.mpr ha
  have hlb : 0 < b.length := List.length_pos.mpr hb
  have hL : (a ++ b).length = ((a ++ b).length - 2) + 1 + 1 := by
    rw [List.length_append]
    omega
  rw [hL, scanTokensF_step _ h0 (fun e => ha (List.append_eq_nil.mp e).1),
    scanTokensF_step _ h1 hb, scanTokensF_nil]

/-- Alignment of the findall tokenization with a token-shaped fragment
pair: when both fragments are single `_RE_PCT_TOKEN` tokens and the
concatenated string matches the dual-percentage grammar (exactly two
tokens found), the two tokens found are exactly the two fragments. -/
theorem tokens_of_concat {t0 t1 : String} (h0 : isPctTok t0 = true) (h1 : isPctTok t1 = true)
    (hg : matchesGrammar .twoPct (pyStripChars ((t0 ++ t1).data)) = true) :
    findTokens (pyStrip (t0 ++ t1)) = [t0, t1] := by
  have hdata : (t0 ++ t1).data = t0.data ++ t1.data := rfl
  have hws : ∀ c ∈ (t0 ++ t1).data, isPyWs c = false := by
    intro c hc
    rw [hdata] at hc
    rcases List.mem_append.mp hc with hc1 | hc2
    · exact isPctTok_no_ws h0 c hc1
    · exact isPctTok_no_ws h1 c hc2
  have hstrip : pyStripChars ((t0 ++ t1).data) = (t0 ++ t1).data := pyStripChars_eq_self hws
  have hps : pyStrip (t0 ++ t1) = t0 ++ t1 := by
    rw [pyStrip, hstrip, strMk_data]
  rw [hps]
  rw [hstrip] at hg
  have h1tok : pctTokAt t1.data = some (t1.data, []) := of_decide_eq_true h1
  have h1ne : t1.data ≠ [] := by
    intro e
    rw [e] at h1tok
    exact Option.noConfusion h1tok
  have hmain : ∀ h0' : pctTokAt (t0.data ++ t1.data) = some (t0.data, t1.data),
      t0.data ≠ [] → findTokens (t0 ++ t1) = [t0, t1] := by
    intro h0' h0ne
    simp only [findTokens, hdata]
    rw [scan_two h0ne h1ne h0' h1tok]
    simp [strMk_data]
  rcases isPctTok_cases h0 with hdash0 | ⟨neg0, ds0, ds20, dot0, hne0, hd0, hd20, hshape0⟩
  · -- t0 is the bare dash
    rcases isPctTok_cases h1 with hdash1 | ⟨neg1, ds1, ds21, dot1, hne1, hd1, hd21, hshape1⟩
    · -- both dashes: concrete
      have ht0 : t0 = "-" := String.ext (by rw [hdash0])
      have ht1 : t1 = "-" := String.ext (by rw [hdash1])
      rw [ht0, ht1]
      decide
    · cases hneg1 : neg1 with
      | true =>
        -- t1 starts with a minus: the dash fallback fires, then t1
        rw [hneg1, if_pos rfl] at hshape1
        refine hmain ?_ (by rw [hdash0]; decide)
        rw [hdash0]
        have he : ((['-'] : List Char) ++ t1.data) = '-' :: t1.data := rfl
        rw [he]
        simp only [pctTokAt]
        rw [if_pos trivial]
        have hcore : pctTokCore t1.data = none := by
          have he2 : t1.data = '-' :: ((ds1 ++ (if dot1 then '.' :: ds21 else [])) ++ ['%']) := by
            rw [hshape1]
            simp
          rw [he2]
          simp only [pctTokCore, List.takeWhile_cons, List.dropWhile_cons]
          rw [show isDig '-' = false from by decide]
          simp
        rw [hcore]
      | false =>
        -- t1 starts with a digit: the scan merges '-' with t1 into one
        -- token, so only one token is found, contradicting the grammar
        -- match hypothesis
        exfalso
        rw [hneg1, if_neg (by decide)] at hshape1
        have hmerge : pctTokAt ((t0 ++ t1).data) =
            some ('-' :: (ds1 ++ (if dot1 then '.' :: ds21 else []) ++ ['%']), []) := by
          rw [hdata, hdash0]
          have he : ((['-'] : List Char) ++ t1.data) = '-' :: t1.data := rfl
          rw [he]
          simp only [pctTokAt]
          rw [if_pos trivial]
          have hcore := @pctTokCore_shape_head ds1 ds21 dot1 hne1 hd1 hd21 []
          rw [List.append_nil] at hcore
          have he2 : t1.data = ds1 ++ (if dot1 then '.' :: ds21 else []) ++ ['%'] := by
            rw [hshape1]
            simp
          rw [he2, hcore]
        have hcne : (t0 ++ t1).data ≠ [] := by
          rw [hdata, hdash0]
          simp
        have hL : ((t0 ++ t1).data).length = (((t0 ++ t1).data).length - 1) + 1 := by
          have := List.length_pos.mpr hcne
          omega
        have hscan : scanTokensF ((t0 ++ t1).data).length ((t0 ++ t1).data) =
            ['-' :: (ds1 ++ (if dot1 then '.' :: ds21 else []) ++ ['%'])] := by
          rw [hL, scanTokensF_step _ hmerge hcne, scanTokensF_nil]
        simp only [matchesGrammar, decide_eq_true_eq] at hg
        rw [hscan] at hg
        simp at hg
  · -- t0 is a percentage-shaped token: the scan recovers t0 then t1
    refine hmain ?_ (by rw [hshape0]; simp)
    rw [hshape0]
    exact pctTokAt_shape_head hne0 hd0 hd20 t1.data

/-- A splitter whose matcher fails on the stripped input returns the raw
string with no secondary value (the silent-degrade branch of all three
split helpers). -/
theorem applySplit_fail {kind : SplitKind} {s : String}
    (h : matchesGrammar kind (pyStripChars s.data) = false) :
    applySplit kind (.vStr s) = some (.vStr s, .vNone) := by
  cases kind with
  | k52w =>
    rcases hm : match52 (pyStripChars s.data) with _ | g
    · show split52 (.vStr s) = _
      simp only [split52, hm]
    · simp only [matchesGrammar, hm, Option.isSome_some] at h
      exact Bool.noConfusion h
  | twoPct =>
    have hlen : (findTokens (pyStrip s)).length ≠ 2 := by
      intro e
      have h2 : (scanTokensF (pyStripChars s.data).length (pyStripChars s.data)).length = 2 := by
        simpa [findTokens, pyStrip] using e
      simp only [matchesGrammar, decide_eq_false_iff_not] at h
      exact h h2
    show splitTwoPcts (.vStr s) = _
    rcases htl : findTokens (pyStrip s) with _ | ⟨a, _ | ⟨b, _ | ⟨c, tl⟩⟩⟩
    · simp only [splitTwoPcts, htl]
    · simp only [splitTwoPcts, htl]
    · exact absurd (by rw [htl]; rfl) hlen
    · simp only [splitTwoPcts, htl]
  | divAmt =>
    rcases hm : matchDiv (pyStripChars s.data) with _ | g
    · show splitDivAmt (.vStr s) = _
      simp only [splitDivAmt, hm]
    · simp only [matchesGrammar, hm, Option.isSome_some] at h
      exact Bool.noConfusion h

/-! ### Claim theorems -/

/-- C1: the claim says a ticker whose per-ticker processing raises a
network/parse exception is excluded from both the successful-records list
and the skipped-tickers list.  The code disagrees: `scrape_stock` returns
`None` both on an exception and on the affiliate sentinel, so
`scrape_multiple` appends an exception ticker to the same skipped
(`affiliates`) list as an affiliate ticker, and a normal page is the only
way into the results list.  Evaluated at the failing input: a single
ticker whose fetch raises lands in the skipped-tickers list. -/
theorem c1_exception_ticker_lands_in_skip_list :
    scrape_multiple [("AAPL", .raises)] = ([], ["AAPL"]) ∧
    scrape_multiple [("XYZ", .page "Affiliate" [])] = ([], ["XYZ"]) ∧
    scrape_multiple [("A", .page "Apple Inc." [])] =
      ([[("ticker", .vStr "A"), ("company_name", .vStr "Apple Inc.")]], []) ∧
    scrape_multiple [("A", .page "Apple Inc." []), ("B", .raises)] =
      ([[("ticker", .vStr "A"), ("company_name", .vStr "Apple Inc.")]], ["B"]) := by
  refine ⟨rfl, rfl, rfl, rfl⟩

/-- C2 counterexample: `"- -"` is a non-empty input that matches the
dual-percentage grammar (exactly two `_RE_PCT_TOKEN` tokens), yet the
splitter produces a `None` primary value, refuting the claim as stated. -/
theorem c2_counterexample :
    lookupSplitMap "eps_past_3_5y" = some ("eps_past_3y", "eps_past_5y", .twoPct) ∧
    "- -" ≠ "" ∧
    matchesGrammar .twoPct (pyStripChars "- -".data) = true ∧
    applySplit .twoPct (.vStr "- -") = some (.vNone, .vNone) ∧
    split_multi_value_fields [("eps_past_3_5y", .vStr "- -")] =
      some [("eps_past_3y", .vNone)] := by
  refine ⟨rfl, by decide, rfl, rfl, rfl⟩

/-- C3 counterexample, one concrete failure per restriction in the
amendment.  (a) Amount+yield label `dividend_ttm`: the pre-split fragment
path parses `"(1.28%)"` through `_parse_value` (which fails on the
parentheses and keeps the raw text), while the concatenated string
`"0.06(1.28%)"` matches `_RE_DIV_AMT` and parses the yield to a fraction —
the two paths disagree although the string matches the grammar.
(b) Magnitude+delta label `52w_high`: the fragments `"12.3"` and `"45%"`
concatenate to `"12.345%"`, which matches `_RE_52W` but re-splits at a
different boundary (`12.34` and `5%`), disagreeing with the fragment path
(`12.3` and `45%`).  (c) Dual-percentage kind with a fragment that is not
itself a single `_RE_PCT_TOKEN` token: `"65.40%3"` carries a trailing
digit, so the concatenation `"65.40%37.40%"` re-tokenizes as
`"65.40%"`/`"37.40%"` and the two paths disagree although the
concatenated string matches the dual-percentage grammar. -/
theorem c3_counterexample :
    (lookupSplitMap "dividend_ttm" = some ("dividend_ttm", "dividend_yield", .divAmt) ∧
     "0.06" ++ "(1.28%)" = "0.06(1.28%)" ∧
     matchesGrammar .divAmt (pyStripChars "0.06(1.28%)".data) = true ∧
     applySplit .divAmt (.vStr "0.06(1.28%)") =
       some (.vFloat ⟨6, 2⟩, .vFloat ⟨128, 4⟩) ∧
     presplitPair "0.06" "(1.28%)" = (.vFloat ⟨6, 2⟩, .vStr "(1.28%)") ∧
     applySplit .divAmt (.vStr ("0.06" ++ "(1.28%)")) ≠
       some (presplitPair "0.06" "(1.28%)")) ∧
    (lookupSplitMap "52w_high" = some ("52w_high", "52w_high_pct", .k52w) ∧
     "12.3" ++ "45%" = "12.345%" ∧
     matchesGrammar .k52w (pyStripChars "12.345%".data) = true ∧
     applySplit .k52w (.vStr "12.345%") = some (.vFloat ⟨1234, 2⟩, .vFloat ⟨5, 2⟩) ∧
     presplitPair "12.3" "45%" = (.vFloat ⟨123, 1⟩, .vFloat ⟨45, 2⟩) ∧
     applySplit .k52w (.vStr ("12.3" ++ "45%")) ≠ some (presplitPair "12.3" "45%")) ∧
    (lookupSplitMap "eps_past_3_5y" = some ("eps_past_3y", "eps_past_5y", .twoPct) ∧
     isPctTok "65.40%3" = false ∧
     "65.40%3" ++ "7.40%" = "65.40%37.40%" ∧
     matchesGrammar .twoPct (pyStripChars "65.40%37.40%".data) = true ∧
     applySplit .twoPct (.vStr "65.40%37.40%") =
       some (.vFloat ⟨6540, 4⟩, .vFloat ⟨3740, 4⟩) ∧
     presplitPair "65.40%3" "7.40%" = (.vFloat ⟨65403, 5⟩, .vFloat ⟨740, 4⟩) ∧
     applySplit .twoPct (.vStr ("65.40%3" ++ "7.40%")) ≠
       some (presplitPair "65.40%3" "7.40%")) := by
  refine ⟨⟨rfl, by decide, rfl, rfl, rfl, by decide⟩,
    ⟨rfl, by decide, rfl, rfl, rfl, by decide⟩,
    ⟨rfl, by decide, by decide, rfl, rfl, rfl, by decide⟩⟩

/-- C5: for every field stored under a `_pct`-suffixed Postgres column,
the load-time translation `SQLITE_TO_PG` composed with the query-time
translation `PG_TO_API` is the identity, and a row read back from either
backend exposes the same unit-suffix-free key. -/
theorem c5_backend_column_name_roundtrip :
    ∀ k pg, alookup SQLITE_TO_PG k = some pg →
      alookup PG_TO_API pg = some k ∧
      ∀ v : Value, pg_row_to_api [pg] [v] = [(k, v)] ∧ sqlite_row_to_api [k] [v] = [(k, v)] := by
  have hall : ∀ p ∈ SQLITE_TO_PG, alookup PG_TO_API p.2 = some p.1 := by decide
  intro k pg h
  have hmem : (k, pg) ∈ SQLITE_TO_PG := by
    rw [alookup] at h
    rcases hf : SQLITE_TO_PG.find? (fun p => p.1 = k) with _ | ⟨p⟩
    · rw [hf] at h
      exact Option.noConfusion h
    · rw [hf] at h
      have hp := List.find?_some hf
      have hp1 : p.1 = k := by simpa using hp
      have hp2 : p.2 = pg := by
        simpa using h
      have := List.mem_of_find?_eq_some hf
      rw [← hp1, ← hp2]
      simpa using this
  have hback := hall (k, pg) hmem
  refine ⟨hback, fun v => ⟨?_, rfl⟩⟩
  simp [pg_row_to_api, hback]

/-- C5 witness: the composition at the concrete field `profit_margin`. -/
theorem c5_witness :
    alookup PG_TO_API "profit_margin_pct" = some "profit_margin" ∧
    pg_row_to_api ["profit_margin_pct"] [.vFloat ⟨35, 2⟩] = [("profit_margin", .vFloat ⟨35, 2⟩)] := by
  have h := c5_backend_column_name_roundtrip "profit_margin" "profit_margin_pct" (by decide)
  exact ⟨h.1, (h.2 (.vFloat ⟨35, 2⟩)).1⟩

/-- C9 counterexample: `"7%2%"` ends in `%` and its numeric prefix
`"7%2"` fails to parse, so by the claim the parser must return the
original text; the code instead strips every `%` and returns 0.72. -/
theorem c9_counterexample :
    "7%2%".data.getLast? = some '%' ∧
    pyFloat "7%2" = none ∧
    parse_value "7%2%" = .vFloat ⟨72, 2⟩ ∧
    parse_value "7%2%" ≠ .vStr "7%2%" := by
  refine ⟨by decide, by decide, rfl, by decide⟩

/-- C9 (amended): for every string ending in `%`, the parser strips all
`%` characters and parses the remainder; on success it returns that
number divided by 100 and on failure the original text unchanged, never
raising. -/
theorem c9_amended_percent_parse :
    ∀ s : String, s.data.getLast? = some '%' →
      (∀ f, pyFloat (dropAll '%' s) = some f → parse_value s = .vFloat f.div100) ∧
      (pyFloat (dropAll '%' s) = none → parse_value s = .vStr s) := by
  intro s hlast
  have hmem : '%' ∈ s.data := List.mem_of_mem_getLast? hlast
  have hts : s ≠ "" := by
    intro e
    rw [e] at hlast
    exact Option.noConfusion hlast
  have htd : s ≠ "-" := by
    intro e
    rw [e] at hlast
    simp at hlast
  constructor
  · intro f hf
    unfold parse_value
    rw [if_neg (by simp [hts, htd]), if_pos (strHas_of_mem hmem), hf]
  · intro hf
    unfold parse_value
    rw [if_neg (by simp [hts, htd]), if_pos (strHas_of_mem hmem), hf]

/-- C9 witness: the amended behavior at `"7.25%"` (spec example) and at
the unparseable `"ab%"`. -/
theorem c9_witness :
    parse_value "7.25%" = .vFloat ⟨725, 4⟩ ∧ parse_value "ab%" = .vStr "ab%" ∧
    PyFloat.val ⟨725, 4⟩ = 725 / 10000 := by
  refine ⟨?_, ?_, by norm_num [PyFloat.val]⟩
  · exact (c9_amended_percent_parse "7.25%" (by decide)).1 ⟨725, 2⟩ (by decide)
  · exact (c9_amended_percent_parse "ab%" (by decide)).2 (by decide)

/-- C6: for every label in the grammar table and every string on which
the label's matcher fails, `split_multi_value_fields` stores the entire
raw string unchanged under the primary key, emits no secondary key, and
raises no error (the result is `some`). -/
theorem c6_unsplittable_degrade :
    ∀ key pk sk kind, lookupSplitMap key = some (pk, sk, kind) →
      ∀ s : String, matchesGrammar kind (pyStripChars s.data) = false →
      split_multi_value_fields [(key, .vStr s)] = some [(pk, .vStr s)] := by
  intro key pk sk kind hlook s hfail
  rw [split_multi_value_fields]
  simp only [smvfAux, hlook, applySplit_fail hfail]
  simp [dinsert, smvfAux]

/-- C6 witness: the spec's `"garbled***"` input under the dual-percentage
label `eps_past_3_5y` (and, for good measure, under the other two grammar
kinds). -/
theorem c6_witness :
    split_multi_value_fields [("eps_past_3_5y", .vStr "garbled***")] =
      some [("eps_past_3y", .vStr "garbled***")] ∧
    split_multi_value_fields [("52w_high", .vStr "garbled***")] =
      some [("52w_high", .vStr "garbled***")] ∧
    split_multi_value_fields [("dividend_ttm", .vStr "garbled***")] =
      some [("dividend_ttm", .vStr "garbled***")] :=
  ⟨c6_unsplittable_degrade "eps_past_3_5y" "eps_past_3y" "eps_past_5y" .twoPct rfl
    "garbled***" (by decide),
   c6_unsplittable_degrade "52w_high" "52w_high" "52w_high_pct" .k52w rfl
    "garbled***" (by decide),
   c6_unsplittable_degrade "dividend_ttm" "dividend_ttm" "dividend_yield" .divAmt rfl
    "garbled***" (by decide)⟩

/-- C7: the dual-percentage input `"65.40%-"` yields primary 0.654 with
the secondary key entirely absent from the output dict; and in general a
bare-dash token in a dual-percentage cell yields `None` (an absent value,
never zero) for its slot. -/
theorem c7_dash_slot_absent :
    split_multi_value_fields [("eps_past_3_5y", .vStr "65.40%-")] =
      some [("eps_past_3y", .vFloat ⟨6540, 4⟩)] ∧
    applySplit .twoPct (.vStr "65.40%-") = some (.vFloat ⟨6540, 4⟩, .vNone) ∧
    PyFloat.val ⟨6540, 4⟩ = 654 / 1000 ∧
    (∀ s a b p q, findTokens (pyStrip s) = [a, b] →
      applySplit .twoPct (.vStr s) = some (p, q) →
      (a = "-" → p = .vNone) ∧ (b = "-" → q = .vNone)) := by
  refine ⟨rfl, rfl, by norm_num [PyFloat.val], ?_⟩
  intro s a b p q htl happ
  simp only [applySplit, splitTwoPcts, htl] at happ
  rcases hta : toFloatTok a with _ | x
  · rw [hta] at happ
    exact absurd happ (by simp)
  · rw [hta] at happ
    rcases htb : toFloatTok b with _ | y
    · rw [htb] at happ
      exact absurd happ (by simp)
    · rw [htb] at happ
      simp only [Option.some.injEq, Prod.mk.injEq] at happ
      constructor
      · intro ha
        rw [ha] at hta
        replace hta : some Value.vNone = some x := hta
        rw [← happ.1]
        injection hta with hAPI
        exact hAPI.symm
      · intro hb
        rw [hb] at htb
        replace htb : some Value.vNone = some y := htb
        rw [← happ.2]
        injection htb with hAPI
        exact hAPI.symm

/-- C7 witness: the general dash rule applied to `"- 37.40%"` (dash in
the primary slot). -/
theorem c7_witness :
    applySplit .twoPct (.vStr "- 37.40%") = some (.vNone, .vFloat ⟨3740, 4⟩) ∧
    (Value.vNone : Value) = .vNone :=
  ⟨rfl,
   (c7_dash_slot_absent.2.2.2 "- 37.40%" "-" "37.40%" .vNone (.vFloat ⟨3740, 4⟩)
      (by decide) rfl).1 rfl⟩

/-- C8: the magnitude+delta input `"5.45-13.94%"` splits to primary 5.45
and secondary -0.1394 (both at the splitter level and through
`split_multi_value_fields` under the `52w_high` label); in general, when
the `_RE_52W` anchor-match succeeds and the two captured groups parse,
the splitter emits the leading decimal as a float and the signed
percentage folded to a fraction. -/
theorem c8_magnitude_delta_round_trip :
    applySplit .k52w (.vStr "5.45-13.94%") =
      some (.vFloat ⟨545, 2⟩, .vFloat ⟨-1394, 4⟩) ∧
    split_multi_value_fields [("52w_high", .vStr "5.45-13.94%")] =
      some [("52w_high", .vFloat ⟨545, 2⟩), ("52w_high_pct", .vFloat ⟨-1394, 4⟩)] ∧
    PyFloat.val ⟨545, 2⟩ = 545 / 100 ∧ PyFloat.val ⟨-1394, 4⟩ = -(1394 / 10000) ∧
    (∀ s g1 g2 a b, match52 (pyStripChars s.data) = some (g1, g2) →
      pyFloatChars g1 = some a → pyFloatChars (g2.filter (· ≠ '%')) = some b →
      applySplit .k52w (.vStr s) = some (.vFloat a, .vFloat b.div100)) := by
  refine ⟨rfl, rfl, by norm_num [PyFloat.val], by norm_num [PyFloat.val], ?_⟩
  intro s g1 g2 a b hm h1 h2
  show split52 (.vStr s) = _
  simp only [split52, hm, h1, h2]

/-- C8 witness: the general emission rule applied at the concrete
round-trip input. -/
theorem c8_witness :
    applySplit .k52w (.vStr "5.45-13.94%") =
      some (.vFloat ⟨545, 2⟩, .vFloat (PyFloat.div100 ⟨-1394, 2⟩)) :=
  c8_magnitude_delta_round_trip.2.2.2.2 "5.45-13.94%"
    ['5', '.', '4', '5'] ['-', '1', '3', '.', '9', '4', '%'] ⟨545, 2⟩ ⟨-1394, 2⟩
    (by decide) (by decide) (by decide)

/-- C2 (amended): for every label in the grammar table and every
non-empty string matching that label's grammar, a successful split yields
a primary value that is not `None` — except in the dual-percentage
grammar when the first matched token is the bare dash (the absent-value
placeholder), which is the only way a `None` primary can arise. -/
theorem c2_amended_primary_not_none :
    ∀ key pk sk kind, lookupSplitMap key = some (pk, sk, kind) →
      ∀ s : String, s ≠ "" → matchesGrammar kind (pyStripChars s.data) = true →
      ∀ p q, applySplit kind (.vStr s) = some (p, q) → p = .vNone →
      kind = .twoPct ∧ (findTokens (pyStrip s)).head? = some "-" := by
  intro key pk sk kind hlook s hne hg p q happ hp
  cases kind with
  | k52w =>
    exfalso
    rcases hm : match52 (pyStripChars s.data) with _ | g
    · rw [matchesGrammar, hm] at hg
      exact Bool.noConfusion hg
    · simp only [applySplit, split52, hm] at happ
      rcases h1 : pyFloatChars g.1 with _ | a
      · rw [h1] at happ
        exact absurd happ (by simp)
      · rcases h2 : pyFloatChars (g.2.filter (· ≠ '%')) with _ | b
        · rw [h1, h2] at happ
          exact absurd happ (by simp)
        · rw [h1, h2] at happ
          simp only [Option.some.injEq, Prod.mk.injEq] at happ
          rw [← happ.1] at hp
          exact Value.noConfusion hp
  | divAmt =>
    exfalso
    rcases hm : matchDiv (pyStripChars s.data) with _ | g
    · rw [matchesGrammar, hm] at hg
      exact Bool.noConfusion hg
    · simp only [applySplit, splitDivAmt, hm] at happ
      rcases h1 : pyFloatChars g.1 with _ | a
      · rw [h1] at happ
        exact absurd happ (by simp)
      · rcases h2 : pyFloatChars g.2 with _ | b
        · rw [h1, h2] at happ
          exact absurd happ (by simp)
        · rw [h1, h2] at happ
          simp only [Option.some.injEq, Prod.mk.injEq] at happ
          rw [← happ.1] at hp
          exact Value.noConfusion hp
  | twoPct =>
    refine ⟨rfl, ?_⟩
    have hlen : (findTokens (pyStrip s)).length = 2 := by
      simp only [matchesGrammar, decide_eq_true_eq] at hg
      simpa [findTokens, pyStrip] using hg
    rcases htl : findTokens (pyStrip s) with _ | ⟨a, _ | ⟨b, _ | ⟨c, tl⟩⟩⟩
    · rw [htl] at hlen
      simp at hlen
    · rw [htl] at hlen
      simp at hlen
    · simp only [applySplit, splitTwoPcts, htl] at happ
      rcases hta : toFloatTok a with _ | x
      · rw [hta] at happ
        exact absurd happ (by simp)
      · rcases htb : toFloatTok b with _ | y
        · rw [hta, htb] at happ
          exact absurd happ (by simp)
        · rw [hta, htb] at happ
          simp only [Option.some.injEq, Prod.mk.injEq] at happ
          by_cases ha : a = "-"
          · rw [ha]
            rfl
          · exfalso
            rw [toFloatTok, if_neg ha] at hta
            rcases hpf : pyFloat (dropAll '%' a) with _ | f
            · rw [hpf] at hta
              exact Option.noConfusion hta
            · rw [hpf] at hta
              simp only [Option.map_some', Option.some.injEq] at hta
              rw [← happ.1, ← hta] at hp
              exact Value.noConfusion hp
    · rw [htl] at hlen
      simp at hlen

/-- C2 witness: the amended rule applied at the double-dash input, whose
`None` primary is traced back to a leading dash token. -/
theorem c2_witness :
    SplitKind.twoPct = SplitKind.twoPct ∧
      (findTokens (pyStrip "- -")).head? = some "-" :=
  c2_amended_primary_not_none "eps_past_3_5y" "eps_past_3y" "eps_past_5y" .twoPct rfl
    "- -" (by decide) rfl .vNone .vNone rfl rfl

/-- C3 (amended): for the dual-percentage labels, the pre-split fragment
path and the concatenated-string path agree whenever each fragment is
itself a single `_RE_PCT_TOKEN` token and the concatenated string matches
the label's grammar.  (Each restriction is forced by one part of the
counterexample: the amount+yield labels fail on parenthesized yields, the
magnitude+delta labels re-split concatenations at a different boundary,
and non-token fragments re-tokenize differently.) -/
theorem c3_amended_presplit_string_agree :
    ∀ key pk sk, lookupSplitMap key = some (pk, sk, .twoPct) →
      ∀ t0 t1 : String, isPctTok t0 = true → isPctTok t1 = true →
      matchesGrammar .twoPct (pyStripChars ((t0 ++ t1).data)) = true →
      applySplit .twoPct (.vStr (t0 ++ t1)) = some (presplitPair t0 t1) := by
  intro key pk sk hlook t0 t1 h0 h1 hg
  have hcat := tokens_of_concat h0 h1 hg
  simp only [applySplit, splitTwoPcts, hcat, toFloatTok_eq_parse h0, toFloatTok_eq_parse h1]
  rfl

/-- C3 witness: agreement of the two paths at the fragments
`["65.40%", "37.40%"]` and at the partially absent `["65.40%", "-"]`. -/
theorem c3_witness :
    applySplit .twoPct (.vStr ("65.40%" ++ "37.40%")) =
      some (presplitPair "65.40%" "37.40%") ∧
    applySplit .twoPct (.vStr ("65.40%" ++ "-")) = some (presplitPair "65.40%" "-") ∧
    presplitPair "65.40%" "37.40%" = (.vFloat ⟨6540, 4⟩, .vFloat ⟨3740, 4⟩) ∧
    presplitPair "65.40%" "-" = (.vFloat ⟨6540, 4⟩, .vNone) :=
  ⟨c3_amended_presplit_string_agree "eps_past_3_5y" "eps_past_3y" "eps_past_5y" rfl
      "65.40%" "37.40%" (by decide) (by decide) (by decide),
   c3_amended_presplit_string_agree "eps_past_3_5y" "eps_past_3y" "eps_past_5y" rfl
      "65.40%" "-" (by decide) (by decide) (by decide),
   rfl, rfl⟩

theorem alookup_mem {α : Type} {l : List (String × α)} {k : String} {v : α}
    (h : alookup l k = some v) : (k, v) ∈ l := by
  rw [alookup] at h
  rcases hf : l.find? (fun p => p.1 = k) with _ | p
  · rw [hf] at h
    exact Option.noConfusion h
  · rw [hf] at h
    have hp := List.find?_some hf
    have hp1 : p.1 = k := by simpa using hp
    have hp2 : p.2 = v := by simpa using h
    have hm := List.mem_of_find?_eq_some hf
    have heta : (p.1, p.2) = p := rfl
    rw [← hp1, ← hp2, heta]
    exact hm

theorem mem_dinsert {k : String} {v : Value} :
    ∀ {d : List (String × Value)}, ∀ kv ∈ dinsert d k v, kv = (k, v) ∨ kv ∈ d := by
  intro d
  induction d with
  | nil =>
    intro kv h
    simp [dinsert] at h
    left
    simp [h]
  | cons a rest ih =>
    obtain ⟨k1, v1⟩ := a
    intro kv h
    simp only [dinsert] at h
    by_cases hk : k1 = k
    · rw [if_pos hk] at h
      rcases List.mem_cons.mp h with rfl | h2
      · left
        rw [hk]
      · right
        exact List.mem_cons_of_mem _ h2
    · rw [if_neg hk] at h
      rcases List.mem_cons.mp h with rfl | h2
      · right
        exact List.mem_cons_self _ _
      · rcases ih kv h2 with h3 | h3
        · left
          exact h3
        · right
          exact List.mem_cons_of_mem _ h3

theorem dinsert_nodup {k : String} {v : Value} :
    ∀ {d : List (String × Value)}, (d.map Prod.fst).Nodup →
      ((dinsert d k v).map Prod.fst).Nodup := by
  intro d
  induction d with
  | nil =>
    intro _
    simp [dinsert]
  | cons a rest ih =>
    obtain ⟨k1, v1⟩ := a
    intro h
    simp only [List.map_cons, List.nodup_cons] at h
    simp only [dinsert]
    by_cases hk : k1 = k
    · rw [if_pos hk]
      simp only [List.map_cons, List.nodup_cons]
      exact ⟨h.1, h.2⟩
    · rw [if_neg hk]
      simp only [List.map_cons, List.nodup_cons]
      refine ⟨?_, ih h.2⟩
      intro hmem
      obtain ⟨kv, hkv, hfst⟩ := List.mem_map.mp hmem
      rcases mem_dinsert kv hkv with rfl | hin
      · exact hk hfst.symm
      · exact h.1 (List.mem_map.mpr ⟨kv, hin, hfst⟩)

theorem dinsert_fresh {k : String} {v : Value} :
    ∀ {d : List (String × Value)}, k ∉ d.map Prod.fst → dinsert d k v = d ++ [(k, v)] := by
  intro d
  induction d with
  | nil =>
    intro _
    rfl
  | cons a rest ih =>
    obtain ⟨k1, v1⟩ := a
    intro h
    simp only [List.map_cons, List.mem_cons] at h
    push_neg at h
    simp only [dinsert]
    rw [if_neg (fun e => h.1 e.symm), ih h.2]
    rfl

theorem toFloatTok_shape {a : String} {x : Value} (h : toFloatTok a = some x) :
    x = .vNone ∨ ∃ f : PyFloat, x = .vFloat f := by
  rw [toFloatTok] at h
  by_cases ha : a = "-"
  · rw [if_pos ha] at h
    left
    injection h with h1
    exact h1.symm
  · rw [if_neg ha] at h
    rcases hp : pyFloat (dropAll '%' a) with _ | f
    · rw [hp] at h
      exact Option.noConfusion h
    · rw [hp] at h
      right
      refine ⟨f.div100, ?_⟩
      injection h with h1
      exact h1.symm

/-- Re-splitting the primary output of any splitter reproduces it with no
secondary value: a non-string passes through, a float or `None` produced
by a successful match is not re-split, and a string kept by a failed
match fails the same match again. -/
theorem splitFix {kind : SplitKind} {v p sec : Value}
    (h : applySplit kind v = some (p, sec)) : applySplit kind p = some (p, .vNone) := by
  cases v with
  | vNone =>
    have he : applySplit kind Value.vNone = some (.vNone, .vNone) := by cases kind <;> rfl
    rw [he] at h
    simp only [Option.some.injEq, Prod.mk.injEq] at h
    rw [← h.1]
    exact he
  | vInt n =>
    have he : applySplit kind (Value.vInt n) = some (.vInt n, .vNone) := by cases kind <;> rfl
    rw [he] at h
    simp only [Option.some.injEq, Prod.mk.injEq] at h
    rw [← h.1]
    exact he
  | vFloat f =>
    have he : applySplit kind (Value.vFloat f) = some (.vFloat f, .vNone) := by cases kind <;> rfl
    rw [he] at h
    simp only [Option.some.injEq, Prod.mk.injEq] at h
    rw [← h.1]
    exact he
  | vStr s =>
    cases kind with
    | k52w =>
      rcases hm : match52 (pyStripChars s.data) with _ | g
      · simp only [applySplit, split52, hm, Option.some.injEq, Prod.mk.injEq] at h
        rw [← h.1]
        show split52 (.vStr s) = _
        simp only [split52, hm]
      · rcases h1 : pyFloatChars g.1 with _ | a
        · simp only [applySplit, split52, hm, h1] at h
          exact Option.noConfusion h
        · rcases h2 : pyFloatChars (g.2.filter (· ≠ '%')) with _ | b
          · simp only [applySplit, split52, hm, h1, h2] at h
            exact Option.noConfusion h
          · simp only [applySplit, split52, hm, h1, h2, Option.some.injEq,
              Prod.mk.injEq] at h
            rw [← h.1]
            rfl
    | divAmt =>
      rcases hm : matchDiv (pyStripChars s.data) with _ | g
      · simp only [applySplit, splitDivAmt, hm, Option.some.injEq, Prod.mk.injEq] at h
        rw [← h.1]
        show splitDivAmt (.vStr s) = _
        simp only [splitDivAmt, hm]
      · rcases h1 : pyFloatChars g.1 with _ | a
        · simp only [applySplit, splitDivAmt, hm, h1] at h
          exact Option.noConfusion h
        · rcases h2 : pyFloatChars g.2 with _ | b
          · simp only [applySplit, splitDivAmt, hm, h1, h2] at h
            exact Option.noConfusion h
          · simp only [applySplit, splitDivAmt, hm, h1, h2, Option.some.injEq,
              Prod.mk.injEq] at h
            rw [← h.1]
            rfl
    | twoPct =>
      rcases htl : findTokens (pyStrip s) with _ | ⟨a, _ | ⟨b, _ | ⟨c, tl⟩⟩⟩
      · simp only [applySplit, splitTwoPcts, htl, Option.some.injEq, Prod.mk.injEq] at h
        rw [← h.1]
        show splitTwoPcts (.vStr s) = _
        simp only [splitTwoPcts, htl]
      · simp only [applySplit, splitTwoPcts, htl, Option.some.injEq, Prod.mk.injEq] at h
        rw [← h.1]
        show splitTwoPcts (.vStr s) = _
        simp only [splitTwoPcts, htl]
      · simp only [applySplit, splitTwoPcts, htl] at h
        rcases hta : toFloatTok a with _ | x
        · rw [hta] at h
          exact absurd h (by simp)
        · rcases htb : toFloatTok b with _ | y
          · rw [hta, htb] at h
            exact absurd h (by simp)
          · rw [hta, htb] at h
            simp only [Option.some.injEq, Prod.mk.injEq] at h
            rw [← h.1]
            rcases toFloatTok_shape hta with rfl | ⟨f, rfl⟩ <;> rfl
      · simp only [applySplit, splitTwoPcts, htl, Option.some.injEq, Prod.mk.injEq] at h
        rw [← h.1]
        show splitTwoPcts (.vStr s) = _
        simp only [splitTwoPcts, htl]

theorem table_pk_consistent : ∀ x ∈ splitMap, ∀ e2, lookupSplitMap x.2.1 = some e2 →
    e2.1 = x.2.1 ∧ e2.2.2 = x.2.2.2 := by
  have hb : splitMap.all
      (fun x =>
        match lookupSplitMap x.2.1 with
        | none => true
        | some e2 => decide (e2.1 = x.2.1) && decide (e2.2.2 = x.2.2.2)) = true := by decide
  intro x hx e2 h2
  have hx2 := List.all_eq_true.mp hb x hx
  rw [h2] at hx2
  simp only [Bool.and_eq_true, decide_eq_true_eq] at hx2
  exact hx2

theorem table_sk_not_key : ∀ x ∈ splitMap, lookupSplitMap x.2.2.1 = none := by
  decide

/-- The splitting pass only produces good dicts: keys stay pairwise
distinct and every entry is a fixed point of re-splitting. -/
theorem smvf_good : ∀ (l acc : List (String × Value)), GoodDict acc →
    ∀ d', smvfAux acc l = some d' → GoodDict d' := by
  intro l
  induction l with
  | nil =>
    intro acc hacc d' h
    simp only [smvfAux, Option.some.injEq] at h
    rw [← h]
    exact hacc
  | cons kv rest ih =>
    intro acc hacc d' h
    obtain ⟨k, v⟩ := kv
    simp only [smvfAux] at h
    rcases hlook : lookupSplitMap k with _ | e
    · simp only [hlook] at h
      refine ih (dinsert acc k v) ⟨dinsert_nodup hacc.1, ?_⟩ d' h
      intro kv2 hkv2
      rcases mem_dinsert kv2 hkv2 with rfl | hin
      · intro e2 h2
        rw [hlook] at h2
        exact Option.noConfusion h2
      · exact hacc.2 kv2 hin
    · simp only [hlook] at h
      rcases happ : applySplit e.2.2 v with _ | pv
      · simp only [happ] at h
        exact Option.noConfusion h
      · simp only [happ] at h
        have hmem : (k, e) ∈ splitMap := alookup_mem hlook
        have hg1 : GoodDict (dinsert acc e.1 pv.1) := by
          refine ⟨dinsert_nodup hacc.1, ?_⟩
          intro kv2 hkv2
          rcases mem_dinsert kv2 hkv2 with rfl | hin
          · intro e2 h2
            have ht := table_pk_consistent (k, e) hmem e2 h2
            exact ⟨ht.1, ht.2 ▸ splitFix happ⟩
          · exact hacc.2 kv2 hin
        by_cases hsec : pv.2 ≠ Value.vNone
        · rw [if_pos hsec] at h
          refine ih (dinsert (dinsert acc e.1 pv.1) e.2.1 pv.2)
            ⟨dinsert_nodup hg1.1, ?_⟩ d' h
          intro kv2 hkv2
          rcases mem_dinsert kv2 hkv2 with rfl | hin
          · intro e2 h2
            have := table_sk_not_key (k, e) hmem
            rw [this] at h2
            exact Option.noConfusion h2
          · exact hg1.2 kv2 hin
        · rw [if_neg hsec] at h
          exact ih _ hg1 d' h

/-- A good dict is a fixed point of the splitting pass. -/
theorem smvf_fix : ∀ (d acc : List (String × Value)),
    (acc.map Prod.fst ++ d.map Prod.fst).Nodup → (∀ kv ∈ d, goodEntry kv.1 kv.2) →
    smvfAux acc d = some (acc ++ d) := by
  intro d
  induction d with
  | nil =>
    intro acc _ _
    simp [smvfAux]
  | cons kv rest ih =>
    intro acc hnd hgood
    obtain ⟨k, v⟩ := kv
    have hkfresh : k ∉ acc.map Prod.fst := by
      intro hin
      rcases List.nodup_append.mp hnd with ⟨_, _, hdisj⟩
      exact hdisj hin (by simp)
    have hnd2 : ((acc ++ [(k, v)]).map Prod.fst ++ rest.map Prod.fst).Nodup := by
      simpa [List.append_assoc] using hnd
    rcases hlook : lookupSplitMap k with _ | e
    · simp only [smvfAux, hlook]
      rw [dinsert_fresh hkfresh,
        ih (acc ++ [(k, v)]) hnd2 (fun kv2 h2 => hgood kv2 (List.mem_cons_of_mem _ h2))]
      simp
    · have he := hgood (k, v) (List.mem_cons_self _ _) e hlook
      simp only [smvfAux, hlook, he.2]
      rw [he.1, dinsert_fresh hkfresh]
      rw [if_neg (by simp)]
      rw [ih (acc ++ [(k, v)]) hnd2 (fun kv2 h2 => hgood kv2 (List.mem_cons_of_mem _ h2))]
      simp

/-- C10: `split_multi_value_fields` is idempotent — whenever it returns a
dict (raises no exception), applying it again to that dict returns the
same dict unchanged. -/
theorem c10_split_idempotent :
    ∀ d d', split_multi_value_fields d = some d' →
      split_multi_value_fields d' = some d' := by
  intro d d' h
  have hg := smvf_good d [] ⟨by simp, by simp⟩ d' h
  have hfix := smvf_fix d' [] (by simpa using hg.1) hg.2
  simpa [split_multi_value_fields] using hfix

/-- C10 witness: idempotence at a dict mixing a successful 52-week split,
a double-dash dual-percentage cell and a scalar field. -/
theorem c10_witness :
    split_multi_value_fields
        [("52w_high", .vFloat ⟨545, 2⟩), ("52w_high_pct", .vFloat ⟨-1394, 4⟩),
         ("eps_past_3y", .vNone), ("price", .vInt 5)] =
      some [("52w_high", .vFloat ⟨545, 2⟩), ("52w_high_pct", .vFloat ⟨-1394, 4⟩),
         ("eps_past_3y", .vNone), ("price", .vInt 5)] :=
  c10_split_idempotent
    [("52w_high", .vStr "5.45-13.94%"), ("eps_past_3_5y", .vStr "- -"), ("price", .vInt 5)]
    _ rfl

theorem find?_append_none {α : Type} {p : α → Bool} :
    ∀ {l1 : List α} (l2 : List α), l1.find? p = none → (l1 ++ l2).find? p = l2.find? p := by
  intro l1
  induction l1 with
  | nil =>
    intro l2 _
    rfl
  | cons a r ih =>
    intro l2 h
    cases hp : p a with
    | true =>
      rw [List.find?_cons_of_pos _ hp] at h
      exact Option.noConfusion h
    | false =>
      rw [List.find?_cons_of_neg _ (by rw [hp]; exact Bool.false_ne_true)] at h
      rw [List.cons_append, List.find?_cons_of_neg _ (by rw [hp]; exact Bool.false_ne_true)]
      exact ih l2 h

theorem find?_filter_not {α : Type} {p q : α → Bool} {l : List α}
    (hpq : ∀ a, p a = true → q a = false) : (l.filter q).find? p = none := by
  rw [List.find?_eq_none]
  intro x hx hpx
  have hqx := List.of_mem_filter hx
  rw [hpq x hpx] at hqx
  exact Bool.noConfusion hqx

/-- After INSERT OR REPLACE, the looked-up row for the conflicting ticker
is the new row. -/
theorem stocksFind_replace {tbl : List (List (String × Value))} {row : List (String × Value)}
    {tv : Value} (hrow : alookup row "ticker" = some tv) :
    stocksFind (insertOrReplaceStocks tbl row) tv = some row := by
  rw [stocksFind, insertOrReplaceStocks]
  rw [find?_append_none]
  · rw [List.find?_cons_of_pos]
    exact decide_eq_true hrow
  · apply find?_filter_not
    intro r hpr
    have hr : alookup r "ticker" = some tv := of_decide_eq_true hpr
    simp [hr, hrow]

/-- INSERT OR IGNORE on a key not yet in the history table appends the
row, which the key lookup then finds. -/
theorem histFind_ignore_fresh {tbl : List (List Value)} {row : List Value} {tk dt : Value}
    (hk : row.get? 0 = some tk) (hd : row.get? 1 = some dt)
    (hfresh : histFind tbl tk dt = none) :
    insertOrIgnoreHist tbl row = tbl ++ [row] ∧
    histFind (tbl ++ [row]) tk dt = some row := by
  rw [histFind] at hfresh
  have hall := List.find?_eq_none.mp hfresh
  constructor
  · rw [insertOrIgnoreHist, if_neg]
    intro hany
    obtain ⟨r, hr, hpred⟩ := List.any_eq_true.mp hany
    have hpred2 := of_decide_eq_true hpred
    exact hall r hr (decide_eq_true ⟨by rw [hpred2.1, hk], by rw [hpred2.2, hd]⟩)
  · rw [histFind, find?_append_none _ hfresh, List.find?_cons_of_pos]
    exact decide_eq_true ⟨hk, hd⟩

/-- INSERT OR IGNORE on a key already present leaves the table unchanged. -/
theorem histFind_ignore_dup {tbl : List (List Value)} {row r0 : List Value}
    (hmem : r0 ∈ tbl) (h0 : r0.get? 0 = row.get? 0) (h1 : r0.get? 1 = row.get? 1) :
    insertOrIgnoreHist tbl row = tbl := by
  rw [insertOrIgnoreHist, if_pos]
  exact List.any_eq_true.mpr ⟨r0, hmem, decide_eq_true ⟨h0, h1⟩⟩

theorem buildHistRow_key0 (env : LoadEnv) (s : List (String × Value)) :
    (buildHistRow env s).get? 0 = some (clean_value (sGet s "ticker")) := rfl

theorem buildHistRow_key1 (env : LoadEnv) (s : List (String × Value)) :
    (buildHistRow env s).get? 1 = some (clean_value (.vStr env.today)) := rfl

/-- The dynamic `stocks` row always carries the record's ticker as its
first column. -/
theorem buildStocksRow_ticker {env : LoadEnv} {s r : List (String × Value)}
    (hb : buildStocksRow env s = some r) :
    alookup r "ticker" = some (sGet s "ticker") := by
  rw [buildStocksRow] at hb
  rcases hc : clean_company_name (sGet s "company_name") with _ | cname
  · rw [hc] at hb
    exact Option.noConfusion hb
  · rw [hc] at hb
    simp only [Option.map_some', Option.some.injEq] at hb
    rw [← hb]
    rfl

/-- `loadStock` on a record with a truthy ticker performs exactly the two
statements: replace the `stocks` row, insert-or-ignore the history row. -/
theorem loadStock_eq {env : LoadEnv} {db : DB} {s r : List (String × Value)} {t : String}
    (ht : sGet s "ticker" = .vStr t) (htne : t ≠ "")
    (hb : buildStocksRow env s = some r) :
    loadStock env db s =
      some ⟨insertOrReplaceStocks db.stocks r,
            insertOrIgnoreHist db.hist (buildHistRow env s)⟩ := by
  rw [loadStock, ht]
  rw [if_neg (by simp [truthy, htne]), hb]
  rfl

/-- C4: loading two records for the same ticker on the same day leaves
the first-written history row in place (the second insert is ignored
under UNIQUE(ticker, date)), while the current-state `stocks` row is the
whole row built from the second record (insert-or-replace, last writer
wins). -/
theorem c4_history_append_only_stocks_last_write
    (env : LoadEnv) (db : DB) (s1 s2 r1 r2 : List (String × Value)) (t : String)
    (ht1 : sGet s1 "ticker" = .vStr t) (ht2 : sGet s2 "ticker" = .vStr t) (htne : t ≠ "")
    (hb1 : buildStocksRow env s1 = some r1) (hb2 : buildStocksRow env s2 = some r2)
    (hct : clean_value (.vStr t) = .vStr t)
    (hcd : clean_value (.vStr env.today) = .vStr env.today)
    (hfresh : histFind db.hist (.vStr t) (.vStr env.today) = none) :
    ∃ db1 db2,
      loadStock env db s1 = some db1 ∧ loadStock env db1 s2 = some db2 ∧
      histFind db1.hist (.vStr t) (.vStr env.today) = some (buildHistRow env s1) ∧
      db2.hist = db1.hist ∧
      histFind db2.hist (.vStr t) (.vStr env.today) = some (buildHistRow env s1) ∧
      stocksFind db2.stocks (.vStr t) = some r2 := by
  have hk01 : (buildHistRow env s1).get? 0 = some (.vStr t) := by
    rw [buildHistRow_key0, ht1, hct]
  have hk11 : (buildHistRow env s1).get? 1 = some (.vStr env.today) := by
    rw [buildHistRow_key1, hcd]
  have hk02 : (buildHistRow env s2).get? 0 = some (.vStr t) := by
    rw [buildHistRow_key0, ht2, hct]
  have hk12 : (buildHistRow env s2).get? 1 = some (.vStr env.today) := by
    rw [buildHistRow_key1, hcd]
  obtain ⟨hins1, hfind1⟩ := histFind_ignore_fresh hk01 hk11 hfresh
  have hl1 : loadStock env db s1 =
      some ⟨insertOrReplaceStocks db.stocks r1, db.hist ++ [buildHistRow env s1]⟩ := by
    rw [loadStock_eq ht1 htne hb1, hins1]
  have hdup : insertOrIgnoreHist (db.hist ++ [buildHistRow env s1]) (buildHistRow env s2) =
      db.hist ++ [buildHistRow env s1] := by
    refine histFind_ignore_dup (List.mem_append_right _ (List.mem_singleton.mpr rfl)) ?_ ?_
    · rw [hk01, hk02]
    · rw [hk11, hk12]
  have hl2 : loadStock env ⟨insertOrReplaceStocks db.stocks r1,
      db.hist ++ [buildHistRow env s1]⟩ s2 =
      some ⟨insertOrReplaceStocks (insertOrReplaceStocks db.stocks r1) r2,
            db.hist ++ [buildHistRow env s1]⟩ := by
    rw [loadStock_eq ht2 htne hb2]
    simp only [hdup]
  refine ⟨_, _, hl1, hl2, hfind1, rfl, hfind1, ?_⟩
  exact stocksFind_replace (by rw [buildStocksRow_ticker hb2, ht2])

/-- C4 witness: two same-day loads of ticker `A` with different prices —
the history keeps the first snapshot, the stocks row is the second. -/
theorem c4_witness :
    ∃ db1 db2,
      loadStock ⟨[], "2026-01-05", .vNone⟩ ⟨[], []⟩ [("ticker", .vStr "A")] = some db1 ∧
      loadStock ⟨[], "2026-01-05", .vNone⟩ db1
        [("ticker", .vStr "A"), ("price", .vInt 5)] = some db2 ∧
      histFind db1.hist (.vStr "A") (.vStr "2026-01-05") =
        some (buildHistRow ⟨[], "2026-01-05", .vNone⟩ [("ticker", .vStr "A")]) ∧
      db2.hist = db1.hist ∧
      histFind db2.hist (.vStr "A") (.vStr "2026-01-05") =
        some (buildHistRow ⟨[], "2026-01-05", .vNone⟩ [("ticker", .vStr "A")]) ∧
      stocksFind db2.stocks (.vStr "A") =
        some [("ticker", .vStr "A"), ("company_name", .vNone), ("industry", .vNone),
              ("sector", .vNone), ("last_updated", .vNone), ("price", .vInt 5)] :=
  c4_history_append_only_stocks_last_write ⟨[], "2026-01-05", .vNone⟩ ⟨[], []⟩
    [("ticker", .vStr "A")] [("ticker", .vStr "A"), ("price", .vInt 5)]
    [("ticker", .vStr "A"), ("company_name", .vNone), ("industry", .vNone),
     ("sector", .vNone), ("last_updated", .vNone)]
    [("ticker", .vStr "A"), ("company_name", .vNone), ("industry", .vNone),
     ("sector", .vNone), ("last_updated", .vNone), ("price", .vInt 5)]
    "A" rfl rfl (by decide) (by decide) (by decide) (by decide) (by decide) rfl

end StockDash
